import Mathlib

/-!
Verification development for the `jsonx` Go package: a decoder and encoder
for an extended JSON dialect ("JSONX") with unquoted object keys, trailing
commas and typed scalar literals.

The Go sources are shallowly embedded:

* the input buffer `[]byte` becomes `List Nat` (each element a byte value);
* the decoder's mutable cursor `d.pos` is threaded explicitly: every grammar
  function takes the buffer and a position and returns a `PR α` holding the
  parsed value and the new position, or an error, or the markers `crash`
  (an out-of-bounds buffer access, which Go would turn into a panic) and
  `nofuel` (exhaustion of the explicit fuel that stands in for the
  unbounded recursion of the Go parser);
* Go's `float64` values are modelled exactly as canonical decimal
  fractions (`Dec`): all numeric claims settled here only involve values
  on which the Go float arithmetic is exact (small integers), and IEEE
  rounding itself is out of scope;
* machine integers (`int8` &c.) are modelled as `Int`/`Nat` with explicit
  range checks matching `strconv`'s;
* Go loops (`for`/`goto scan`) become recursions that are structural over an
  explicit budget argument; each wrapper passes `data.length + 1`, which is
  shown (in the safety lemmas) to make the budget-exhaustion branch
  unreachable, so the recursion simulates the Go loop exactly.
-/

namespace Jsonx

/-- ASCII bytes of a Lean string literal; used to write concrete test
buffers.  All literals in this development are pure ASCII, for which this
agrees with Go's byte representation. -/
def byt (s : String) : List Nat := s.toList.map Char.toNat

/-- View a byte list as a Lean string (used only to build error-message
text, which is ASCII throughout). -/
def asStr (s : List Nat) : String := String.mk (s.map Char.ofNat)

/-- Whitespace bytes skipped by the decoder: space, tab, LF, CR. -/
def isSpaceB (c : Nat) : Bool := c = 32 || c = 9 || c = 10 || c = 13

/-- Decimal digit bytes. -/
def isDigitB (c : Nat) : Bool := 48 ≤ c && c ≤ 57

/-- First byte of a decoder atom: `[A-Za-z_]` (from `Decoder.atom`). -/
def isAtomStartB (c : Nat) : Bool :=
  (97 ≤ c && c ≤ 122) || (65 ≤ c && c ≤ 90) || c = 95

/-- Continuation byte of a decoder atom: `[A-Za-z0-9_]` (from `Decoder.atom`). -/
def isAtomCharB (c : Nat) : Bool := isAtomStartB c || isDigitB c

/-- The parsed-IP payload of `net.ParseIP`: either four IPv4 octets or a raw
IPv6 text.  Only the IPv4 side is parsed precisely; the IPv6 side keeps the
literal text, which is enough because no claim below inspects IPv6 values. -/
inductive IpVal where
  | v4 (a b c d : Nat)
  | v6 (raw : List Nat)
  deriving DecidableEq

/-- A decimal fraction `mant / 10 ^ frac10` in canonical form (`frac10`
minimal), modelling a `float64` value exactly.  The decoder only produces
canonical values (`Dec.make` strips trailing factors of ten), so equality
of `Dec` values coincides with equality of the rationals they denote.
Negative zero is not distinguished. -/
structure Dec where
  mant : Int
  frac10 : Nat
  deriving DecidableEq

/-- The decimal value of an integer. -/
def Dec.ofInt (n : Int) : Dec := ⟨n, 0⟩

/-- Negation of a decimal value (canonicity is preserved). -/
def Dec.negate (d : Dec) : Dec := ⟨-d.mant, d.frac10⟩

/-- Canonicalization loop: strip factors of ten while the denominator
exponent is positive (fuel-structural; the fuel is the exponent itself). -/
def Dec.canon : Nat → Int → Nat → Dec
  | 0, m, f => ⟨m, f⟩
  | fu + 1, m, f =>
    if f = 0 then ⟨m, 0⟩
    else if m % 10 = 0 then Dec.canon fu (m / 10) (f - 1)
    else ⟨m, f⟩

/-- The canonical decimal value `m / 10 ^ f`. -/
def Dec.make (m : Int) (f : Nat) : Dec := Dec.canon f m f

/-- The dynamically-typed value tree produced by `Decoder.Decode` and
consumed by `Encoder.encodeValue`.  Go's `map[string]interface{}` is
modelled as an association list (`obj`); Go's map iteration order is
recovered by quantifying over permutations of that list.  Strings are byte
lists, like Go strings.  `num` carries a `Dec` modelling the `float64`
payload exactly. -/
inductive Value where
  | null
  | vbool (b : Bool)
  | num (q : Dec)
  | str (s : List Nat)
  | arr (xs : List Value)
  | obj (fs : List (List Nat × Value))
  | vint (n : Int)
  | vi8 (n : Int)
  | vi16 (n : Int)
  | vi32 (n : Int)
  | vi64 (n : Int)
  | vuint (n : Nat)
  | vu8 (n : Nat)
  | vu16 (n : Nat)
  | vu32 (n : Nat)
  | vu64 (n : Nat)
  | tstamp (s : List Nat)
  | vip (ip : IpVal)
  | vipport (ip : IpVal) (port : Int)
  | vbytes (bs2 : List Nat)

/-- Errors of the package.  The Go predefined sentinel errors
(`ErrUnexpectedEOF`, `ErrInvalidHexEscape`, `ErrStringEscape`) are compared
by identity in Go; they are modelled as distinct constructors.  `syn`
models `*SyntaxError{msg, Offset}`, `extra` models `*ExtraDataError`, and
`timeFail` models the error returned verbatim by `time.Parse` for a bad
`datetime(...)` argument. -/
inductive Err where
  | syn (msg : String) (off : Int)
  | extra (off : Nat)
  | eof
  | invalidHex
  | strEscape
  | timeFail (arg : List Nat)
  deriving DecidableEq

/-- The `Offset` field of an error value: the predefined sentinels carry
offset `-1` in `interface.go`. -/
def Err.offset : Err → Int
  | .syn _ o => o
  | .extra o => (o : Int)
  | _ => -1

/-- Result of one decoder grammar function: a value with the updated cursor,
a failure with the cursor where it was raised, an out-of-bounds buffer
access (`crash` — Go would panic), or fuel exhaustion (`nofuel` — an
artifact of the embedding, never of the Go code). -/
inductive PR (α : Type) where
  | ok (a : α) (pos : Nat)
  | fail (e : Err) (pos : Nat)
  | crash
  | nofuel

/-- Result of a top-level decode: Go's `Decode` returns the pair
`(value, error)` where a value and an `ExtraDataError` may be returned
together (`okExtra`). -/
inductive DecRes where
  | ok (v : Value)
  | okExtra (v : Value) (off : Nat)
  | err (e : Err)
  | crash
  | nofuel

/-- A single quote character, kept out of string literals. -/
def sq : String := String.mk [Char.ofNat 39]

/-- Lower-case hex digits of a byte, two characters. -/
def hexByte (c : Nat) : String :=
  let d (n : Nat) : Char := if n < 10 then Char.ofNat (48 + n) else Char.ofNat (87 + n)
  String.mk [d (c / 16 % 16), d (c % 16)]

/-- Modelled from the spec: the repository's `quoteChar` helper (its file is
not under `src/`) renders a byte the way `strconv.Quote` would, wrapped in
single quotes, e.g. `,` becomes `','` and byte 1 becomes a quoted
`\x01` form.  Error-message text built from it is never pinned by a claim;
only the offsets and error kinds are. -/
def quoteChar (c : Nat) : String :=
  if c = 39 then sq ++ "\\" ++ sq ++ sq
  else if c = 34 then sq ++ "\\\"" ++ sq
  else if c = 92 then sq ++ "\\\\" ++ sq
  else if 32 ≤ c ∧ c ≤ 126 then sq ++ String.mk [Char.ofNat c] ++ sq
  else sq ++ "\\x" ++ hexByte c ++ sq

/-- Message text of a positioned syntax error, as built in `Decoder.error`. -/
def errMsg (c : Nat) (ctx : String) : String :=
  "invalid character " ++ quoteChar c ++ " " ++ ctx

/-- `Decoder.error`: if the cursor is strictly inside the buffer the error is
a `SyntaxError` at offset `pos + 1`; at (or past) the end it is the
`ErrUnexpectedEOF` sentinel. -/
def errD (data : List Nat) (pos : Nat) (c : Nat) (ctx : String) : Err :=
  if pos < data.length then .syn (errMsg c ctx) ((pos : Int) + 1) else .eof

/-- Numeric value of a digit run (most significant first). -/
def digitsVal (s : List Nat) : Nat := s.foldl (fun a c => 10 * a + (c - 48)) 0

/-- Failure kinds of the Go `strconv` number parsers. -/
inductive NumErrKind where
  | badSyn
  | outOfRange
  deriving DecidableEq

/-- Message text of a `strconv` `*NumError`, e.g.
`strconv.ParseInt: parsing "-500": value out of range`.  The argument is
quoted plainly; the arguments reaching this in the claims contain no
characters that `strconv.Quote` would escape. -/
def numErrMsg (fn : String) (s : List Nat) (k : NumErrKind) : String :=
  "strconv." ++ fn ++ ": parsing \"" ++ asStr s ++ "\": " ++
    (match k with
     | .badSyn => "invalid syntax"
     | .outOfRange => "value out of range")

/-- Model of Go `strconv.ParseUint(s, 10, bits)` (standard library, at its
interface): no sign is accepted, the digits are base 10, and a value above
`2^bits - 1` is a range error. -/
def goParseUint (s : List Nat) (bits : Nat) : Except NumErrKind Nat :=
  if s = [] then .error .badSyn
  else if ¬ s.all isDigitB then .error .badSyn
  else
    let un := digitsVal s
    if un > 2 ^ bits - 1 then .error .outOfRange else .ok un

/-- Model of Go `strconv.ParseInt(s, 10, bits)` (standard library, at its
interface): an optional `+`/`-` sign followed by base-10 digits; the value
must lie in `[-2^(bits-1), 2^(bits-1) - 1]`. -/
def goParseInt (s : List Nat) (bits : Nat) : Except NumErrKind Int :=
  match s with
  | [] => .error .badSyn
  | c0 :: rest =>
    let neg : Bool := c0 = 45
    let digs := if c0 = 43 ∨ c0 = 45 then rest else s
    if digs = [] then .error .badSyn
    else if ¬ digs.all isDigitB then .error .badSyn
    else
      let un := digitsVal digs
      let cutoff := 2 ^ (bits - 1)
      if neg then
        if un > cutoff then .error .outOfRange else .ok (-(un : Int))
      else
        if un > cutoff - 1 then .error .outOfRange else .ok (un : Int)

/-- The canonical decimal value `± mant * 10 ^ signedExp`. -/
def decOfParts (neg : Bool) (mant : Nat) (sexp : Int) : Dec :=
  let m : Int := if neg then -(mant : Int) else (mant : Int)
  if 0 ≤ sexp then Dec.ofInt (m * 10 ^ sexp.toNat)
  else Dec.make m (-sexp).toNat

/-- Model of Go `strconv.ParseFloat(s, 64)` (standard library, at its
interface) restricted to plain decimal mantissa/exponent syntax, which is
the only shape the decoder's number scanner can feed it (`inf`, `nan` and
hex floats can never reach it).  The value is returned exactly as a
canonical decimal; IEEE rounding and overflow-to-range-error are not
modelled, and no claim below depends on them — only on syntactic
acceptance. -/
def goParseFloat (s : List Nat) : Option Dec :=
  let (neg, s1) : Bool × List Nat :=
    match s with
    | 43 :: r => (false, r)
    | 45 :: r => (true, r)
    | _ => (false, s)
  let ds1 := s1.takeWhile isDigitB
  let r1 := s1.drop ds1.length
  let (ds2, r2) : List Nat × List Nat :=
    match r1 with
    | 46 :: r => (r.takeWhile isDigitB, r.drop (r.takeWhile isDigitB).length)
    | _ => ([], r1)
  if ds1.length + ds2.length = 0 then none
  else
    let mant := digitsVal (ds1 ++ ds2)
    let frac : Nat := ds2.length
    match r2 with
    | [] => some (decOfParts neg mant (-(frac : Int)))
    | e :: r3 =>
      if e = 101 ∨ e = 69 then
        let (eneg, r4) : Bool × List Nat :=
          match r3 with
          | 43 :: r => (false, r)
          | 45 :: r => (true, r)
          | _ => (false, r3)
        let eds := r4.takeWhile isDigitB
        if eds = [] ∨ r4.drop eds.length ≠ [] then none
        else
          let ex : Int := (digitsVal eds : Nat)
          some (decOfParts neg mant ((if eneg then -ex else ex) - (frac : Int)))
      else none

/-- Loop body of `Decoder.skipSpaces`, structural over the budget `b`.
Go checks `pos == end` (not `>=`) before dereferencing, so a position
strictly past the end dereferences out of bounds: that, and budget
exhaustion (shown unreachable for the wrapper's budget), yield `none`. -/
def skipSpacesGo (data : List Nat) : Nat → Nat → Option (Nat × Nat)
  | 0, _ => none
  | b + 1, pos =>
    if pos = data.length then some (0, pos)
    else
      match data.get? pos with
      | none => none
      | some c => if isSpaceB c then skipSpacesGo data b (pos + 1) else some (c, pos)

/-- `Decoder.skipSpaces`: skip whitespace, returning the byte at the new
cursor (0 when the input is exhausted).  `none` stands for the
out-of-bounds dereference Go performs when entered past the end. -/
def skipSpacesD (data : List Nat) (pos : Nat) : Option (Nat × Nat) :=
  skipSpacesGo data (data.length + 1) pos

/-- Byte at a position, or 0 past the end: the value of the scanning char
`c` maintained through `Decoder.next`, which yields 0 at end of input. -/
def byteOrZero (data : List Nat) (p : Nat) : Nat := data.getD p 0

/-- Maximal run of decimal digits starting at `pos` (budget-structural). -/
def scanDigitsGo (data : List Nat) : Nat → Nat → Nat
  | 0, pos => pos
  | b + 1, pos =>
    if h : pos < data.length then
      if isDigitB (data.get ⟨pos, h⟩) then scanDigitsGo data b (pos + 1) else pos
    else pos

/-- Position after the maximal digit run starting at `pos`. -/
def scanDigits (data : List Nat) (pos : Nat) : Nat :=
  scanDigitsGo data (data.length + 1) pos

/-- The `1`–`9` accumulation loop of `Decoder.number`: consume a maximal
digit run, computing `n = 10*n + (c - '0')` as the Go code does on
`float64` (exact for the values any claim touches). -/
def intRunGo (data : List Nat) : Nat → Nat → Int → Int × Nat
  | 0, pos, n => (n, pos)
  | b + 1, pos, n =>
    if h : pos < data.length then
      let c := data.get ⟨pos, h⟩
      if isDigitB c then intRunGo data b (pos + 1) (10 * n + ((c - 48 : Nat) : Int))
      else (n, pos)
    else (n, pos)

/-- Wrapper for `intRunGo` with an always-sufficient budget. -/
def intRun (data : List Nat) (pos : Nat) (n : Int) : Int × Nat :=
  intRunGo data (data.length + 1) pos n

/-- Maximal run of atom characters (`[A-Za-z0-9_]`) starting at `pos`. -/
def atomRunGo (data : List Nat) : Nat → Nat → Nat
  | 0, pos => pos
  | b + 1, pos =>
    if h : pos < data.length then
      if isAtomCharB (data.get ⟨pos, h⟩) then atomRunGo data b (pos + 1) else pos
    else pos

/-- Position after the maximal atom-character run starting at `pos`. -/
def atomRun (data : List Nat) (pos : Nat) : Nat :=
  atomRunGo data (data.length + 1) pos

/-- The bytes `data[a:b]` (a Go slice of the input). -/
def slice (data : List Nat) (a b : Nat) : List Nat := (data.drop a).take (b - a)

/-- `Decoder.atom`: a maximal `[A-Za-z_][A-Za-z0-9_]*` run; on a bad first
byte, a positioned error `looking for atom` (which degrades to the EOF
sentinel at end of input, where the scanned byte variable is still 0). -/
def atomD (data : List Nat) (pos : Nat) : PR (List Nat) :=
  if h : pos < data.length then
    let c := data.get ⟨pos, h⟩
    if isAtomStartB c then
      let e := atomRun data (pos + 1)
      .ok (slice data pos e) e
    else .fail (errD data pos c "looking for atom") pos
  else .fail (errD data pos 0 "looking for atom") pos

/-- Hex digit test used by the `\u` escape scanner. -/
def isHexB (c : Nat) : Bool :=
  (48 ≤ c && c ≤ 57) || (97 ≤ c && c ≤ 102) || (65 ≤ c && c ≤ 70)

/-- The `escape_u` loop of `Decoder.string`: check `i` hex digits starting
at `q` (the Go loop runs three times; the fourth digit is consumed by the
main scan loop).  Returns the position after the checked digits. -/
def hexChk (data : List Nat) : Nat → Nat → Except Err Nat
  | 0, q => .ok q
  | i + 1, q =>
    if h : q < data.length then
      let c := data.get ⟨q, h⟩
      if isHexB c then hexChk data i (q + 1)
      else .error (errD data q c "in \\u hexadecimal character escape")
    else .error .invalidHex

/-- The `scan` loop of `Decoder.string`, entered just after the opening
quote.  Returns the unquote flag and the position of the closing quote.
Budget-structural; exhaustion is `crash` and is shown unreachable for the
wrapper's budget. -/
def strScanGo (data : List Nat) : Nat → Nat → Bool → PR (Bool × Nat)
  | 0, _, _ => .crash
  | b + 1, p, unq =>
    if h : p < data.length then
      let c := data.get ⟨p, h⟩
      if c = 34 then .ok (unq, p) p
      else if c = 92 then
        if h2 : p + 1 < data.length then
          let c2 := data.get ⟨p + 1, h2⟩
          if c2 = 117 then
            match hexChk data 3 (p + 2) with
            | .ok q => strScanGo data b q true
            | .error e => .fail e (p + 2)
          else if c2 = 98 ∨ c2 = 102 ∨ c2 = 110 ∨ c2 = 114 ∨ c2 = 116 ∨
                  c2 = 92 ∨ c2 = 47 ∨ c2 = 34 then
            strScanGo data b (p + 2) true
          else .fail (errD data (p + 1) c2 "in string escape code") (p + 1)
        else .fail .eof (p + 1)
      else if c < 32 then .fail (errD data p c "in string literal") p
      else strScanGo data b (p + 1) (unq || decide (127 < c))
    else .fail .eof p

/-- Single-character escape bytes recognized by the unquote helper. -/
def escByte (e : Nat) : Option Nat :=
  if e = 34 then some 34
  else if e = 92 then some 92
  else if e = 47 then some 47
  else if e = 98 then some 8
  else if e = 102 then some 12
  else if e = 110 then some 10
  else if e = 114 then some 13
  else if e = 116 then some 9
  else none

/-- Value of four hex digits. -/
def hex4 (a b c d : Nat) : Option Nat := do
  let f (x : Nat) : Option Nat :=
    if 48 ≤ x ∧ x ≤ 57 then some (x - 48)
    else if 97 ≤ x ∧ x ≤ 102 then some (x - 87)
    else if 65 ≤ x ∧ x ≤ 70 then some (x - 55)
    else none
  let va ← f a
  let vb ← f b
  let vc ← f c
  let vd ← f d
  some (va * 4096 + vb * 256 + vc * 16 + vd)

/-- UTF-8 bytes of a code point. -/
def encodeUtf8 (cp : Nat) : List Nat :=
  if cp < 0x80 then [cp]
  else if cp < 0x800 then [0xC0 + cp / 64, 0x80 + cp % 64]
  else if cp < 0x10000 then [0xE0 + cp / 4096, 0x80 + cp / 64 % 64, 0x80 + cp % 64]
  else [0xF0 + cp / 262144, 0x80 + cp / 4096 % 64, 0x80 + cp / 64 % 64, 0x80 + cp % 64]

/-- The UTF-8 replacement character, as bytes. -/
def repl : List Nat := [0xEF, 0xBF, 0xBD]

/-- Continuation byte of a UTF-8 sequence. -/
def isCont (c : Nat) : Bool := 0x80 ≤ c && c ≤ 0xBF

/-- Valid second byte of a three-byte UTF-8 sequence led by `c1`
(excluding overlong encodings and surrogates, as Go `utf8.DecodeRune`). -/
def ok3Second (c1 c2 : Nat) : Bool :=
  if c1 = 0xE0 then 0xA0 ≤ c2 && c2 ≤ 0xBF
  else if c1 = 0xED then 0x80 ≤ c2 && c2 ≤ 0x9F
  else isCont c2

/-- Valid second byte of a four-byte UTF-8 sequence led by `c1`. -/
def ok4Second (c1 c2 : Nat) : Bool :=
  if c1 = 0xF0 then 0x90 ≤ c2 && c2 ≤ 0xBF
  else if c1 = 0xF4 then 0x80 ≤ c2 && c2 ≤ 0x8F
  else isCont c2

/-- Modelled from the spec: the repository's `unquoteBytes` helper (its file
is not under `src/`) — unescaping of a string body that was flagged by the
scanner.  Per the spec's string grammar: single-character escapes map to
their bytes; `\u` escapes decode to their code point with surrogate-pair
combination, and an unpaired surrogate becomes the replacement character;
raw bytes that form valid UTF-8 pass through unchanged, and each byte of
an invalid UTF-8 run becomes one replacement character; a malformed escape
makes the whole unquote fail (`none`, surfaced as `ErrStringEscape`). -/
def uq : List Nat → Option (List Nat)
  | [] => some []
  | 92 :: rest =>
    match rest with
    | [] => none
    | 117 :: rest2 =>
      (match rest2 with
       | a :: b :: c :: d :: rest3 =>
         (match hex4 a b c d with
          | none => none
          | some r =>
            if 0xD800 ≤ r ∧ r < 0xDC00 then
              match rest3 with
              | 92 :: 117 :: a2 :: b2 :: c2 :: d2 :: rest4 =>
                (match hex4 a2 b2 c2 d2 with
                 | some r2 =>
                   if 0xDC00 ≤ r2 ∧ r2 < 0xE000 then
                     (encodeUtf8 (0x10000 + (r - 0xD800) * 0x400 + (r2 - 0xDC00)) ++ ·) <$>
                       uq rest4
                   else (repl ++ ·) <$> uq (92 :: 117 :: a2 :: b2 :: c2 :: d2 :: rest4)
                 | none => (repl ++ ·) <$> uq (92 :: 117 :: a2 :: b2 :: c2 :: d2 :: rest4))
              | other => (repl ++ ·) <$> uq other
            else if 0xDC00 ≤ r ∧ r < 0xE000 then (repl ++ ·) <$> uq rest3
            else (encodeUtf8 r ++ ·) <$> uq rest3)
       | _ => none)
    | e :: rest2 =>
      match escByte e with
      | some x => (x :: ·) <$> uq rest2
      | none => none
  | c1 :: rest =>
    if c1 < 0x80 then (c1 :: ·) <$> uq rest
    else if 0xC2 ≤ c1 ∧ c1 ≤ 0xDF then
      match rest with
      | c2 :: rest2 =>
        if isCont c2 then (c1 :: c2 :: ·) <$> uq rest2
        else (repl ++ ·) <$> uq (c2 :: rest2)
      | [] => some repl
    else if 0xE0 ≤ c1 ∧ c1 ≤ 0xEF then
      match rest with
      | c2 :: c3 :: rest2 =>
        if ok3Second c1 c2 && isCont c3 then (c1 :: c2 :: c3 :: ·) <$> uq rest2
        else (repl ++ ·) <$> uq (c2 :: c3 :: rest2)
      | other => (repl ++ ·) <$> uq other
    else if 0xF0 ≤ c1 ∧ c1 ≤ 0xF4 then
      match rest with
      | c2 :: c3 :: c4 :: rest2 =>
        if ok4Second c1 c2 && isCont c3 && isCont c4 then
          (c1 :: c2 :: c3 :: c4 :: ·) <$> uq rest2
        else (repl ++ ·) <$> uq (c2 :: c3 :: c4 :: rest2)
      | other => (repl ++ ·) <$> uq other
    else (repl ++ ·) <$> uq rest

/-- `Decoder.string`, entered with the cursor at the opening quote.
Yields the string bytes: the raw slice when no escape or non-ASCII byte
was seen, otherwise the unquoted bytes (or `ErrStringEscape`). -/
def stringD (data : List Nat) (pos : Nat) : PR (List Nat) :=
  let start := pos + 1
  match strScanGo data (data.length + 1) start false with
  | .ok (unq, pc) _ =>
    if unq then
      match uq (slice data start pc) with
      | some s2 => .ok s2 (pc + 1)
      | none => .fail .strEscape pc
    else .ok (slice data start pc) (pc + 1)
  | .fail e p => .fail e p
  | .crash => .crash
  | .nofuel => .nofuel

/-- The fractional-part step of `Decoder.number`, entered with the cursor
on the `.`: require a byte after the dot (EOF otherwise), keep the
source's (unreachable) `c < '0' && c > '9'` guard, then consume the dot's
follower and a maximal digit run.  Returns the new cursor. -/
def fracPart (data : List Nat) (p1 : Nat) : Except Err Nat :=
  let q := p1 + 1
  if hq : q < data.length then
    let cf := data.get ⟨q, hq⟩
    if cf < 48 ∧ 57 < cf then
      .error (errD data q cf "after decimal point in numeric literal")
    else .ok (scanDigits data (q + 1))
  else .error .eof

/-- The exponent step of `Decoder.number`, entered with the cursor on the
`e`/`E`: an optional sign, a digit required after a sign, then a maximal
digit run (the first exponent byte after `e` or a sign is consumed by the
loop initializer without a digit check, as in the source). -/
def expPart (data : List Nat) (p2 : Nat) : Except Err Nat :=
  let q := p2 + 1
  let c1 := byteOrZero data q
  if c1 = 43 ∨ c1 = 45 then
    let r := q + 1
    let c2 := byteOrZero data r
    if c2 < 48 ∨ 57 < c2 then .error (errD data r c2 "in exponent of numeric literal")
    else .ok (scanDigits data (r + 1))
  else .ok (scanDigits data (if q < data.length then q + 1 else q))

/-- The integer part of `Decoder.number`: a single `0` is consumed and the
scan moves on; `1`–`9` starts the accumulated maximal digit run; any other
byte leaves the accumulator `0` and the cursor in place (reachable through
the `-` path of `Decoder.any`). -/
def intPartD (data : List Nat) (pos : Nat) (c : Nat) : Int × Nat :=
  if c = 48 then (0, pos + 1)
  else if 49 ≤ c ∧ c ≤ 57 then intRun data pos 0
  else (0, pos)

/-- The scanning phase of `Decoder.number`: integer part (a single `0`, or
a `1`–`9`-led accumulated run), optional fraction, optional exponent.
Returns the float flag, the integer accumulation, and the end position.
The initial dereference is unguarded in the source, hence `crash` when the
entry position is out of bounds. -/
def numberScanD (data : List Nat) (pos : Nat) : PR (Bool × Int) :=
  match data.get? pos with
  | none => .crash
  | some c =>
    let np : Int × Nat := intPartD data pos c
    let n := np.1
    let p1 := np.2
    let isF1 : Bool := byteOrZero data p1 = 46
    match (if byteOrZero data p1 = 46 then fracPart data p1 else .ok p1 : Except Err Nat) with
    | .error e => .fail e p1
    | .ok p2 =>
      let ce := byteOrZero data p2
      if ce = 101 ∨ ce = 69 then
        match expPart data p2 with
        | .error e => .fail e p2
        | .ok p3 => .ok (true, n) p3
      else .ok (isF1, n) p2

/-- `Decoder.number`: after the scan, a literal flagged floating is
re-parsed as text by `strconv.ParseFloat` and a failure becomes a
`SyntaxError` at the current offset; otherwise the accumulated integer is
the value. -/
def numberD (data : List Nat) (pos : Nat) : PR Dec :=
  match numberScanD data pos with
  | .ok fn p =>
    if fn.1 then
      let sn := slice data pos p
      match goParseFloat sn with
      | some q => .ok q p
      | none => .fail (.syn (numErrMsg "ParseFloat" sn .badSyn) (p : Int)) p
    else .ok (Dec.ofInt fn.2) p
  | .fail e p => .fail e p
  | .crash => .crash
  | .nofuel => .nofuel

/-- Raw scan of `Decoder.bracketExpr`: advance to the next `)`, returning
the argument slice and the position after the `)`; reaching the end is the
positioned error `looking for )` raised with a space byte, which at end of
input is the EOF sentinel. -/
def parenScanGo (data : List Nat) (start : Nat) : Nat → Nat → PR (List Nat)
  | 0, _ => .crash
  | b + 1, p =>
    if h : p < data.length then
      if data.get ⟨p, h⟩ = 41 then .ok (slice data start p) (p + 1)
      else parenScanGo data start b (p + 1)
    else .fail (errD data p 32 "looking for )") p

/-- `Decoder.bracketExpr`: `(`, optional spaces, then either a full quoted
string argument followed by `)`, or a raw scan to the next `)`. -/
def bracketExprD (data : List Nat) (pos : Nat) : PR (List Nat) :=
  match skipSpacesD data pos with
  | none => .crash
  | some (c, p) =>
    if c ≠ 40 then .fail (errD data p c "looking for (") p
    else
      match skipSpacesD data (p + 1) with
      | none => .crash
      | some (c2, q) =>
        if c2 = 34 then
          match stringD data q with
          | .ok s r =>
            (match skipSpacesD data r with
             | none => .crash
             | some (c3, t) =>
               if c3 ≠ 41 then .fail (errD data t c3 "looking for )") t
               else .ok s (t + 1))
          | .fail e r => .fail e r
          | .crash => .crash
          | .nofuel => .nofuel
        else parenScanGo data q (data.length + 1) q

/-- Model of Go `net.ParseIP` (standard library, at its interface): a
dotted-quad IPv4 literal is parsed to its four octets; any other text
containing a colon is kept as raw IPv6 text (full IPv6 validation is not
modelled — no claim below depends on IPv6 acceptance); anything else is
rejected. -/
def goParseIP (s : List Nat) : Option IpVal :=
  let parts := s.splitOn 46
  if parts.length = 4 ∧ parts.all (fun p => p ≠ [] ∧ p.length ≤ 3 ∧ p.all isDigitB ∧ digitsVal p ≤ 255) then
    match parts with
    | [a, b, c, d] => some (.v4 (digitsVal a) (digitsVal b) (digitsVal c) (digitsVal d))
    | _ => none
  else if s.contains 58 then some (.v6 s) else none

/-- Model of Go `time.Parse(time.RFC3339, s)` acceptance (standard library,
at its interface): the RFC 3339 shape
`dddd-dd-ddTdd:dd:dd[.d+](Z|±dd:dd)` without calendar range checks.  No
claim below depends on which timestamps are accepted. -/
def rfc3339Ok (s : List Nat) : Bool :=
  match s with
  | y1 :: y2 :: y3 :: y4 :: 45 :: m1 :: m2 :: 45 :: d1 :: d2 :: 84 ::
      h1 :: h2 :: 58 :: mi1 :: mi2 :: 58 :: s1 :: s2 :: rest =>
    [y1, y2, y3, y4, m1, m2, d1, d2, h1, h2, mi1, mi2, s1, s2].all isDigitB &&
      (let rest2 :=
        match rest with
        | 46 :: fr => (fr.drop (fr.takeWhile isDigitB).length)
        | _ => rest
       match rest2 with
       | [90] => true
       | z :: o1 :: o2 :: 58 :: o3 :: o4 :: [] =>
         (z = 43 || z = 45) && [o1, o2, o3, o4].all isDigitB
       | _ => false)
  | _ => false

/-- Byte index of `b` in `s` (`strings.IndexByte`). -/
def indexByte (s : List Nat) (b : Nat) : Option Nat := s.indexOf? b

/-- `Decoder.ipport` after the bracket expression returned `str`:
split `[ipv6]:port` or `ipv4:port`, parse the IP and the decimal port,
each sub-failure being its own `SyntaxError` at offset `d.pos + 1` (with
`d.pos` already after the bracket expression). -/
def ipportSplit (data : List Nat) (q : Nat) (str : List Nat) : PR Value :=
  match str with
  | [] => .fail (errD data q 32 "invalid ipport") q
  | c0 :: _ =>
    let eSyn (m : String) : PR Value := .fail (.syn m ((q : Int) + 1)) q
    if c0 = 91 then
      match indexByte (str.drop 1) 93 with
      | none => eSyn "invalid ipv6, missing ]"
      | some i =>
        let pos1 := i + 1
        let ipstr := slice str 1 pos1
        let pos2 := pos1 + 1
        if pos2 ≥ str.length ∨ byteOrZero str pos2 ≠ 58 then eSyn "missing : after ipv6"
        else
          let pos3 := pos2 + 1
          if pos3 ≥ str.length then eSyn "missing port after :"
          else
            let portstr := str.drop pos3
            match goParseIP ipstr with
            | none => eSyn ("malformed IP: " ++ asStr ipstr)
            | some ip =>
              match goParseInt portstr 64 with
              | .error _ => eSyn ("malformed port: " ++ asStr portstr)
              | .ok port => .ok (.vipport ip port) q
    else
      match indexByte str 58 with
      | none => eSyn "missing : after ipv4"
      | some i =>
        let ipstr := str.take i
        let pos3 := i + 1
        if pos3 ≥ str.length then eSyn "missing port after :"
        else
          let portstr := str.drop pos3
          match goParseIP ipstr with
          | none => eSyn ("malformed IP: " ++ asStr ipstr)
          | some ip =>
            match goParseInt portstr 64 with
            | .error _ => eSyn ("malformed port: " ++ asStr portstr)
            | .ok port => .ok (.vipport ip port) q

/-- Shared shape of the `Decoder.intN` methods: a bracket expression whose
argument is handed to `strconv.ParseInt` with the given width; a parse or
range failure becomes a `SyntaxError` carrying the `strconv` message at
the cursor position after the bracket expression. -/
def intLitD (data : List Nat) (pos : Nat) (bits : Nat) (fn : String)
    (mk : Int → Value) : PR Value :=
  match bracketExprD data pos with
  | .ok s q =>
    (match goParseInt s bits with
     | .ok n => .ok (mk n) q
     | .error k => .fail (.syn (numErrMsg fn s k) (q : Int)) q)
  | .fail e p => .fail e p
  | .crash => .crash
  | .nofuel => .nofuel

/-- Shared shape of the `Decoder.uintN` methods, over `strconv.ParseUint`. -/
def uintLitD (data : List Nat) (pos : Nat) (bits : Nat)
    (mk : Nat → Value) : PR Value :=
  match bracketExprD data pos with
  | .ok s q =>
    (match goParseUint s bits with
     | .ok n => .ok (mk n) q
     | .error k => .fail (.syn (numErrMsg "ParseUint" s k) (q : Int)) q)
  | .fail e p => .fail e p
  | .crash => .crash
  | .nofuel => .nofuel

/-- `Decoder.datetime`: bracket expression then `time.Parse(RFC3339, ·)`,
whose error is returned as-is (`timeFail`). -/
def datetimeD (data : List Nat) (pos : Nat) : PR Value :=
  match bracketExprD data pos with
  | .ok s q => if rfc3339Ok s then .ok (.tstamp s) q else .fail (.timeFail s) q
  | .fail e p => .fail e p
  | .crash => .crash
  | .nofuel => .nofuel

/-- `Decoder.ip`: bracket expression then `net.ParseIP`; `nil` becomes the
positioned error `invalid ip` raised with a space byte. -/
def ipD (data : List Nat) (pos : Nat) : PR Value :=
  match bracketExprD data pos with
  | .ok s q =>
    (match goParseIP s with
     | some ip => .ok (.vip ip) q
     | none => .fail (errD data q 32 "invalid ip") q)
  | .fail e p => .fail e p
  | .crash => .crash
  | .nofuel => .nofuel

/-- `Decoder.ipport`: bracket expression then the address/port split. -/
def ipportD (data : List Nat) (pos : Nat) : PR Value :=
  match bracketExprD data pos with
  | .ok s q => ipportSplit data q s
  | .fail e p => .fail e p
  | .crash => .crash
  | .nofuel => .nofuel

/-- The type-name dispatch at the end of `Decoder.any`: a recognized atom
selects its typed-literal parser (`int` uses `strconv.Atoi`, i.e. 64-bit
`ParseInt` with the `Atoi` error text); `true`/`false`/`null` map to their
literals; anything else is `looking for beginning of value` raised with
the atom's first byte at the cursor after the atom. -/
def dispatchAtom (data : List Nat) (a : List Nat) (c : Nat) (p : Nat) : PR Value :=
  if a = byt "true" then .ok (.vbool true) p
  else if a = byt "false" then .ok (.vbool false) p
  else if a = byt "null" then .ok .null p
  else if a = byt "int" then intLitD data p 64 "Atoi" .vint
  else if a = byt "datetime" then datetimeD data p
  else if a = byt "ip" then ipD data p
  else if a = byt "ipport" then ipportD data p
  else if a = byt "int8" then intLitD data p 8 "ParseInt" .vi8
  else if a = byt "int16" then intLitD data p 16 "ParseInt" .vi16
  else if a = byt "int32" then intLitD data p 32 "ParseInt" .vi32
  else if a = byt "int64" then intLitD data p 64 "ParseInt" .vi64
  else if a = byt "uint" then uintLitD data p 64 .vuint
  else if a = byt "uint8" then uintLitD data p 8 .vu8
  else if a = byt "uint16" then uintLitD data p 16 .vu16
  else if a = byt "uint32" then uintLitD data p 32 .vu32
  else if a = byt "uint64" then uintLitD data p 64 .vu64
  else .fail (errD data p c "looking for beginning of value") p

/-- `Decoder.objectKey`: a quoted string key or a bareword atom key. -/
def objectKeyD (data : List Nat) (pos : Nat) : PR (List Nat) :=
  if h : pos < data.length then
    if data.get ⟨pos, h⟩ = 34 then stringD data pos else atomD data pos
  else .fail .eof pos

/-- Insert-or-overwrite of `obj[k] = v` on the association-list model of a
Go map: the last write for a duplicate key wins. -/
def insertKV (fs : List (List Nat × Value)) (k : List Nat) (v : Value) :
    List (List Nat × Value) :=
  match fs with
  | [] => [(k, v)]
  | (k2, v2) :: rest => if k2 = k then (k2, v) :: rest else (k2, v2) :: insertKV rest k v

/-- The recursive entry points of the value parser, bundled so that the
fuel recursion in `fns` is structural on the fuel (each level refers only
to the previous one, mirroring each Go call site). -/
structure ParseFns where
  anyF : List Nat → Nat → PR Value
  arrayF : List Nat → Nat → PR (List Value)
  arrLoopF : List Nat → Nat → List Value → PR (List Value)
  objectF : List Nat → Nat → PR (List (List Nat × Value))
  objLoopF : List Nat → Nat → List (List Nat × Value) → PR (List (List Nat × Value))

/-- One step of `Decoder.any`: dispatch on the first byte — string,
number, negated number (with the source's inoperative `c < '0' && c > '9'`
guard kept as written), array, object, or atom dispatch.  At end of input,
the `looking for beginning of value` error degrades to the EOF sentinel. -/
def anyStep (P : ParseFns) (data : List Nat) (pos : Nat) : PR Value :=
  if h : pos < data.length then
    let c := data.get ⟨pos, h⟩
    if c = 34 then
      match stringD data pos with
      | .ok s p => .ok (.str s) p
      | .fail e p => .fail e p
      | .crash => .crash
      | .nofuel => .nofuel
    else if 48 ≤ c ∧ c ≤ 57 then
      match numberD data pos with
      | .ok n p => .ok (.num n) p
      | .fail e p => .fail e p
      | .crash => .crash
      | .nofuel => .nofuel
    else if c = 45 then
      if h2 : pos + 1 < data.length then
        let c2 := data.get ⟨pos + 1, h2⟩
        if c2 < 48 ∧ 57 < c2 then
          .fail (errD data (pos + 1) c2 "in negative numeric literal") (pos + 1)
        else
          match numberD data (pos + 1) with
          | .ok n p => .ok (.num n.negate) p
          | .fail e p => .fail e p
          | .crash => .crash
          | .nofuel => .nofuel
      else .fail .eof (pos + 1)
    else if c = 91 then
      match P.arrayF data pos with
      | .ok xs p => .ok (.arr xs) p
      | .fail e p => .fail e p
      | .crash => .crash
      | .nofuel => .nofuel
    else if c = 123 then
      match P.objectF data pos with
      | .ok fs p => .ok (.obj fs) p
      | .fail e p => .fail e p
      | .crash => .crash
      | .nofuel => .nofuel
    else
      match atomD data pos with
      | .ok a p => dispatchAtom data a c p
      | .fail e p => .fail e p
      | .crash => .crash
      | .nofuel => .nofuel
  else .fail (errD data pos 0 "looking for beginning of value") pos

/-- One step of the `scan` loop of `Decoder.array`: `]` finishes
(supporting the empty array and a just-consumed trailing comma), otherwise
an element then `,` or `]`, anything else being `after array element` at
that byte. -/
def arrLoopStep (P : ParseFns) (data : List Nat) (pos : Nat) (acc : List Value) :
    PR (List Value) :=
  match skipSpacesD data pos with
  | none => .crash
  | some (c, p) =>
    if c = 93 then .ok acc (p + 1)
    else
      match P.anyF data p with
      | .ok v q =>
        (match skipSpacesD data q with
         | none => .crash
         | some (c2, r) =>
           if c2 = 44 then P.arrLoopF data (r + 1) (acc ++ [v])
           else if c2 = 93 then .ok (acc ++ [v]) (r + 1)
           else .fail (errD data r c2 "after array element") r)
      | .fail e q => .fail e q
      | .crash => .crash
      | .nofuel => .nofuel

/-- One step of the loop of `Decoder.object`: `}` finishes, otherwise a
key (quoted string or bareword), `:` (`after object key` otherwise), a
value, then `,` or `}` (`after object key:value pair` otherwise). -/
def objLoopStep (P : ParseFns) (data : List Nat) (pos : Nat)
    (acc : List (List Nat × Value)) : PR (List (List Nat × Value)) :=
  match skipSpacesD data pos with
  | none => .crash
  | some (c, p) =>
    if c = 125 then .ok acc (p + 1)
    else
      match objectKeyD data p with
      | .ok k q =>
        (match skipSpacesD data q with
         | none => .crash
         | some (c2, r) =>
           if c2 ≠ 58 then .fail (errD data r c2 "after object key") r
           else
             match skipSpacesD data (r + 1) with
             | none => .crash
             | some (_, r2) =>
               match P.anyF data r2 with
               | .ok v t =>
                 (match skipSpacesD data t with
                  | none => .crash
                  | some (c3, u) =>
                    if c3 = 125 then .ok (insertKV acc k v) (u + 1)
                    else if c3 = 44 then P.objLoopF data (u + 1) (insertKV acc k v)
                    else .fail (errD data u c3 "after object key:value pair") u)
               | .fail e t => .fail e t
               | .crash => .crash
               | .nofuel => .nofuel)
      | .fail e q => .fail e q
      | .crash => .crash
      | .nofuel => .nofuel

/-- The fuel tower of the recursive-descent parser: level `f + 1` runs one
step of each Go function with all recursive call sites bound to level `f`
(every recursive call in the source passes through here exactly once).
`Decoder.array`/`Decoder.object` consume the already-scanned bracket and
enter their loop. -/
def fns : Nat → ParseFns
  | 0 =>
    { anyF := fun _ _ => .nofuel
      arrayF := fun _ _ => .nofuel
      arrLoopF := fun _ _ _ => .nofuel
      objectF := fun _ _ => .nofuel
      objLoopF := fun _ _ _ => .nofuel }
  | f + 1 =>
    let P := fns f
    { anyF := anyStep P
      arrayF := fun data pos => P.arrLoopF data (pos + 1) []
      arrLoopF := arrLoopStep P
      objectF := fun data pos => P.objLoopF data (pos + 1) []
      objLoopF := objLoopStep P }

/-- `Decoder.any` at a given fuel. -/
def anyD (f : Nat) (data : List Nat) (pos : Nat) : PR Value := (fns f).anyF data pos

/-- `Decoder.array` at a given fuel, entered with the cursor on `[`. -/
def arrayD (f : Nat) (data : List Nat) (pos : Nat) : PR (List Value) :=
  (fns f).arrayF data pos

/-- `Decoder.object` at a given fuel, entered with the cursor on `{`. -/
def objectD (f : Nat) (data : List Nat) (pos : Nat) : PR (List (List Nat × Value)) :=
  (fns f).objectF data pos

/-- `Decoder.Decode`: skip spaces, parse one value, skip trailing spaces;
remaining bytes yield the value together with an `ExtraDataError` at the
cursor. -/
def decodeD (f : Nat) (data : List Nat) : DecRes :=
  match skipSpacesD data 0 with
  | none => .crash
  | some (_, p) =>
    match anyD f data p with
    | .ok v q =>
      (match skipSpacesD data q with
       | none => .crash
       | some (_, r) => if r < data.length then .okExtra v r else .ok v)
    | .fail e _ => .err e
    | .crash => .crash
    | .nofuel => .nofuel

/-- `Decoder.DecodeObject`: like `Decode` but the first non-space byte must
be `{`. -/
def decodeObjectD (f : Nat) (data : List Nat) : DecRes :=
  match skipSpacesD data 0 with
  | none => .crash
  | some (c, p) =>
    if c ≠ 123 then .err (errD data p c "looking for beginning of object")
    else
      match objectD f data p with
      | .ok fs q =>
        (match skipSpacesD data q with
         | none => .crash
         | some (_, r) => if r < data.length then .okExtra (.obj fs) r else .ok (.obj fs))
      | .fail e _ => .err e
      | .crash => .crash
      | .nofuel => .nofuel

/-- `Decoder.DecodeArray`: like `Decode` but the first non-space byte must
be `[`. -/
def decodeArrayD (f : Nat) (data : List Nat) : DecRes :=
  match skipSpacesD data 0 with
  | none => .crash
  | some (c, p) =>
    if c ≠ 91 then .err (errD data p c "looking for beginning of array")
    else
      match arrayD f data p with
      | .ok xs q =>
        (match skipSpacesD data q with
         | none => .crash
         | some (_, r) => if r < data.length then .okExtra (.arr xs) r else .ok (.arr xs))
      | .fail e _ => .err e
      | .crash => .crash
      | .nofuel => .nofuel

/-! ## Encoder -/

/-- JavaScript safe-integer bound `1<<53 - 1` (`MAX_SAFE_INTEGER` in
`interface.go`). -/
def MAX_SAFE_INTEGER : Int := 2 ^ 53 - 1

/-- `MIN_SAFE_INTEGER` in `interface.go`: `-(1<<53 - 1)`. -/
def MIN_SAFE_INTEGER : Int := -(2 ^ 53 - 1)

/-- Decimal digits of a natural number (`strconv.FormatUint` base 10),
budget-structural on the number itself. -/
def fmtNatGo : Nat → Nat → List Nat
  | 0, _ => []
  | f + 1, n => if n < 10 then [48 + n] else fmtNatGo f (n / 10) ++ [48 + n % 10]

/-- Decimal digits of a natural number. -/
def fmtNat (n : Nat) : List Nat := fmtNatGo (n + 1) n

/-- Decimal text of an integer (`strconv.FormatInt`/`Itoa` base 10). -/
def fmtInt (v : Int) : List Nat :=
  if v < 0 then 45 :: fmtNat v.natAbs else fmtNat v.toNat

/-- The escape mapping of `Encoder.encodeString`: `\ " \r \n \f \t` get a
backslash form; every other byte passes through.  (The Go loop ranges over
runes; on the valid-UTF-8 strings the decoder produces, the byte-wise and
rune-wise traversals emit identical bytes.) -/
def escStr : List Nat → List Nat
  | [] => []
  | c :: rest =>
    (if c = 92 then [92, 92]
     else if c = 34 then [92, 34]
     else if c = 13 then [92, 114]
     else if c = 10 then [92, 110]
     else if c = 12 then [92, 102]
     else if c = 9 then [92, 116]
     else [c]) ++ escStr rest

/-- `Encoder.encodeString`: double quotes around the escaped bytes. -/
def encodeStringD (s : List Nat) : List Nat := [34] ++ escStr s ++ [34]

/-- First-byte test of `Encoder.encodeKey`: `[A-Za-z]` — the encoder does
not accept an underscore here, unlike the decoder's atom grammar. -/
def isKeyAlpha (c : Nat) : Bool := (97 ≤ c && c ≤ 122) || (65 ≤ c && c ≤ 90)

/-- Continuation-byte test of `Encoder.encodeKey`: `[A-Za-z0-9]` — again
without underscore. -/
def isKeyAlnum (c : Nat) : Bool := isKeyAlpha c || (48 ≤ c && c ≤ 57)

/-- The bareword test performed by `Encoder.encodeKey` on a key. -/
def encBareword : List Nat → Bool
  | [] => false
  | c :: rest => isKeyAlpha c && rest.all isKeyAlnum

/-- `Encoder.encodeKey`: emit the key unquoted when it passes the
encoder's bareword test, else as a quoted escaped string. -/
def encodeKeyD (k : List Nat) : List Nat :=
  if encBareword k then k else encodeStringD k

/-- Abstract stand-in for `strconv.FormatFloat(v, 'g', -1, 64)` (standard
library): a value-correct decimal rendering of the exact model value
(`mant` then `e-frac10`).  The textual details of Go's shortest-round-trip
formatting are not modelled and no claim below inspects this output. -/
def fmtFloatG (q : Dec) : List Nat :=
  if q.frac10 = 0 then fmtInt q.mant
  else fmtInt q.mant ++ [101, 45] ++ fmtNat q.frac10

/-- A typed-literal wrapper `name(<digits>)` shared by the
`Encoder.encodeInt*`/`encodeUInt*` methods without safe-integer quoting. -/
def intWrap (name : String) (body : List Nat) : List Nat :=
  byt name ++ [40] ++ body ++ [41]

/-- `Encoder.encodeInt64`: `int64(<decimal>)`, the decimal additionally
wrapped in double quotes inside the parentheses when the value lies
outside `±(2^53 - 1)`. -/
def encodeInt64D (v : Int) : List Nat :=
  byt "int64(" ++
    (if MAX_SAFE_INTEGER < v ∨ v < MIN_SAFE_INTEGER
     then [34] ++ fmtInt v ++ [34] else fmtInt v) ++ [41]

/-- `Encoder.encodeUInt64`: `uint64(<decimal>)`, quoted inside the
parentheses when the value exceeds `2^53 - 1`. -/
def encodeUInt64D (v : Nat) : List Nat :=
  byt "uint64(" ++
    (if (2 ^ 53 - 1 : Nat) < v then [34] ++ fmtNat v ++ [34] else fmtNat v) ++ [41]

/-- Standard base64 alphabet. -/
def b64Char (n : Nat) : Nat :=
  if n < 26 then 65 + n
  else if n < 52 then 97 + (n - 26)
  else if n < 62 then 48 + (n - 52)
  else if n = 62 then 43 else 47

/-- Standard base64 with padding (`encoding/base64.StdEncoding`). -/
def base64Go : List Nat → List Nat
  | [] => []
  | [a] => [b64Char (a / 4), b64Char (a % 4 * 16), 61, 61]
  | [a, b] => [b64Char (a / 4), b64Char (a % 4 * 16 + b / 16), b64Char (b % 16 * 4), 61]
  | a :: b :: c :: rest =>
    [b64Char (a / 4), b64Char (a % 4 * 16 + b / 16),
     b64Char (b % 16 * 4 + c / 64), b64Char (c % 64)] ++ base64Go rest

/-- Textual form of an IP value (`net.IP.String` at its interface): dotted
quad for IPv4; the retained raw text for IPv6. -/
def ipText : IpVal → List Nat
  | .v4 a b c d => fmtNat a ++ [46] ++ fmtNat b ++ [46] ++ fmtNat c ++ [46] ++ fmtNat d
  | .v6 raw => raw

/-- Encoder configuration: pretty flag, per-line prefix and indent unit
(`Encoder.pretty/prefix/indent` in `interface.go`). -/
structure EncCfg where
  pretty : Bool
  pre : List Nat
  ind : List Nat

/-- The compact configuration used by `Marshal`. -/
def cfg0 : EncCfg := ⟨false, [], []⟩

/-- `Encoder.writeIndent`: newline, prefix, then the indent unit repeated
per nesting level. -/
def writeIndentD (cfg : EncCfg) (lvl : Nat) : List Nat :=
  [10] ++ cfg.pre ++ (List.replicate lvl cfg.ind).flatten

/-- Comma-separated emission of a collection: the separator precedes every
element but the first, as the `first` flag does in the Go loops. -/
def encItems (enc : α → List Nat) (sep : List Nat) : List α → List Nat
  | [] => []
  | [x] => enc x
  | x :: y :: rest => enc x ++ sep ++ encItems enc sep (y :: rest)

/-- The key ordering of `Encoder.encodeMap`: `sort.Strings` sorts the keys
lexicographically by bytes. -/
def leBytes : List Nat → List Nat → Bool
  | [], _ => true
  | _ :: _, [] => false
  | a :: as2, b :: bs2 => if a < b then true else if b < a then false else leBytes as2 bs2

/-- The relation `sortPairs` sorts by: key order. -/
def keyLe (p q : List Nat × Value) : Prop := leBytes p.1 q.1 = true

instance : DecidableRel keyLe := fun p q => by unfold keyLe; infer_instance

/-- `Encoder.encodeMap`'s key extraction and `sort.Strings`: the
association-list model is sorted by key (for the duplicate-free lists that
model Go maps this is exactly sorted keys followed by map lookups). -/
def sortPairs (fs : List (List Nat × Value)) : List (List Nat × Value) :=
  List.insertionSort keyLe fs

/-- One level of `Encoder.encodeValue`: dispatch on the value kind.  The
fuel only bounds nesting depth; level `0` returns no bytes and is
unreachable from `marshalD`'s budget on any value it is applied to in the
claims.  `lvl` threads the Go encoder's mutable `level` field. -/
def encValGo : Nat → EncCfg → Nat → Value → List Nat
  | 0, _, _, _ => []
  | f + 1, cfg, lvl, v =>
    match v with
    | .null => byt "null"
    | .vbool b => if b then byt "true" else byt "false"
    | .num q => fmtFloatG q
    | .str s => encodeStringD s
    | .vint n => intWrap "int" (fmtInt n)
    | .vi8 n => intWrap "int8" (fmtInt n)
    | .vi16 n => intWrap "int16" (fmtInt n)
    | .vi32 n => intWrap "int32" (fmtInt n)
    | .vi64 n => encodeInt64D n
    | .vuint n => intWrap "uint" (fmtNat n)
    | .vu8 n => intWrap "uint8" (fmtNat n)
    | .vu16 n => intWrap "uint16" (fmtNat n)
    | .vu32 n => intWrap "uint32" (fmtNat n)
    | .vu64 n => encodeUInt64D n
    | .tstamp s => byt "datetime(\"" ++ s ++ byt "\")"
    | .vip ip => byt "ip(\"" ++ ipText ip ++ byt "\")"
    | .vipport ip port =>
      (match ip with
       | .v4 a b c d =>
         byt "ipport(\"" ++ ipText (.v4 a b c d) ++ [58] ++ fmtInt port ++ byt "\")"
       | .v6 raw => byt "ipport(\"[" ++ raw ++ byt "]:" ++ fmtInt port ++ byt "\")")
    | .vbytes bs2 => byt "bytes(\"" ++ base64Go bs2 ++ byt "\")"
    | .arr xs =>
      let sep := [44] ++ (if cfg.pretty then writeIndentD cfg (lvl + 1) else [])
      [91] ++ (if cfg.pretty then writeIndentD cfg (lvl + 1) else []) ++
        encItems (encValGo f cfg (lvl + 1)) sep xs ++
        (if cfg.pretty then writeIndentD cfg lvl else []) ++ [93]
    | .obj fs =>
      let sep := [44] ++ (if cfg.pretty then writeIndentD cfg (lvl + 1) else [])
      let item := fun (kv : List Nat × Value) =>
        encodeKeyD kv.1 ++ [58] ++ (if cfg.pretty then [32] else []) ++
          encValGo f cfg (lvl + 1) kv.2
      [123] ++ (if cfg.pretty then writeIndentD cfg (lvl + 1) else []) ++
        encItems item sep (sortPairs fs) ++
        (if cfg.pretty then writeIndentD cfg lvl else []) ++ [125]

/-- `Marshal`: compact encoding of a value from nesting level zero. -/
def marshalD (f : Nat) (v : Value) : List Nat := encValGo f cfg0 0 v

/-- `MarshalIndent`: pretty encoding with a prefix and an indent unit. -/
def marshalIndentD (f : Nat) (pre ind : List Nat) (v : Value) : List Nat :=
  encValGo f ⟨true, pre, ind⟩ 0 v

/-! ## Safety and specification lemmas -/

theorem byteOrZero_of_ge {data : List Nat} {p : Nat} (h : data.length ≤ p) :
    byteOrZero data p = 0 := by
  simp [byteOrZero, List.getD_eq_getElem?_getD, List.getElem?_eq_none h]

theorem lt_of_byteOrZero_ne {data : List Nat} {p : Nat}
    (h : byteOrZero data p ≠ 0) : p < data.length := by
  by_contra hc
  exact h (byteOrZero_of_ge (Nat.le_of_not_lt hc))

theorem byteOrZero_of_lt {data : List Nat} {p : Nat} (h : p < data.length) :
    byteOrZero data p = data.get ⟨p, h⟩ := by
  simp [byteOrZero, List.getD_eq_getElem?_getD, List.getElem?_eq_getElem h, List.get_eq_getElem]

/-- Full specification of the `skipSpaces` loop: with sufficient budget and
an in-range entry cursor it returns a position past a run of whitespace,
stopping on the first non-space byte or at the end (where the returned
byte is 0). -/
theorem skipSpacesGo_spec (data : List Nat) :
    ∀ b pos, data.length - pos < b → pos ≤ data.length →
      ∃ c q, skipSpacesGo data b pos = some (c, q) ∧ pos ≤ q ∧ q ≤ data.length ∧
        (∀ i, pos ≤ i → i < q → isSpaceB (data.getD i 0) = true) ∧
        ((q < data.length ∧ data.getD q 0 = c ∧ isSpaceB c = false) ∨
          (q = data.length ∧ c = 0)) := by
  intro b
  induction b with
  | zero => intro pos hb _; omega
  | succ b ih =>
    intro pos hb hpos
    rw [skipSpacesGo]
    by_cases hend : pos = data.length
    · exact ⟨0, pos, by rw [if_pos hend], le_refl _, hpos,
        fun i h1 h2 => absurd h2 (by omega), Or.inr ⟨hend, rfl⟩⟩
    · have hlt : pos < data.length := lt_of_le_of_ne hpos hend
      simp only [if_neg hend]
      rw [List.get?_eq_get hlt]
      by_cases hsp : isSpaceB (data.get ⟨pos, hlt⟩)
      · simp only [hsp, if_true]
        obtain ⟨c, q, heq, hle, hqle, hmid, hend2⟩ :=
          ih (pos + 1) (by omega) (by omega)
        refine ⟨c, q, heq, by omega, hqle, ?_, hend2⟩
        intro i h1 h2
        rcases Nat.eq_or_lt_of_le h1 with h3 | h3
        · subst h3
          rw [List.getD_eq_getElem?_getD, List.getElem?_eq_getElem hlt]
          simpa [List.get_eq_getElem] using hsp
        · exact hmid i h3 h2
      · simp only [hsp, if_false]
        refine ⟨data.get ⟨pos, hlt⟩, pos, rfl, le_refl _, le_of_lt hlt,
          fun i h1 h2 => absurd h2 (by omega), Or.inl ⟨hlt, ?_, by simpa using hsp⟩⟩
        rw [List.getD_eq_getElem?_getD, List.getElem?_eq_getElem hlt]
        simp [List.get_eq_getElem]

/-- Specification of `skipSpacesD` (the wrapper's budget always suffices). -/
theorem skipSpacesD_spec {data : List Nat} {pos : Nat} (hpos : pos ≤ data.length) :
    ∃ c q, skipSpacesD data pos = some (c, q) ∧ pos ≤ q ∧ q ≤ data.length ∧
      (∀ i, pos ≤ i → i < q → isSpaceB (data.getD i 0) = true) ∧
      ((q < data.length ∧ data.getD q 0 = c ∧ isSpaceB c = false) ∨
        (q = data.length ∧ c = 0)) :=
  skipSpacesGo_spec data (data.length + 1) pos (by omega) hpos

/-- The byte returned by `skipSpacesD` is nonzero exactly on a stop strictly
inside the buffer, in which case the stop position is in range. -/
theorem skipSpacesD_ne_zero {data : List Nat} {pos : Nat} {c : Nat} {q : Nat}
    (h : skipSpacesD data pos = some (c, q)) (hpos : pos ≤ data.length)
    (hc : c ≠ 0) : q < data.length := by
  obtain ⟨c2, q2, heq, _, _, _, hend⟩ := skipSpacesD_spec hpos
  rw [h] at heq
  cases heq
  rcases hend with ⟨h1, _, _⟩ | ⟨_, h2⟩
  · exact h1
  · exact absurd h2 hc

/-- Safety of a parse result: never an out-of-bounds access, and a success
leaves the cursor inside (or at the end of) the buffer. -/
def PRSafe (len : Nat) : PR α → Prop
  | .ok _ p => p ≤ len
  | .fail _ _ => True
  | .crash => False
  | .nofuel => True

theorem scanDigitsGo_ge (data : List Nat) :
    ∀ b pos, pos ≤ scanDigitsGo data b pos := by
  intro b
  induction b with
  | zero => intro pos; simp [scanDigitsGo]
  | succ b ih =>
    intro pos
    rw [scanDigitsGo]
    split
    · split
      · exact le_trans (by omega) (ih (pos + 1))
      · exact le_refl _
    · exact le_refl _

theorem scanDigitsGo_le (data : List Nat) :
    ∀ b pos, pos ≤ data.length → scanDigitsGo data b pos ≤ data.length := by
  intro b
  induction b with
  | zero => intro pos h; simpa [scanDigitsGo] using h
  | succ b ih =>
    intro pos h
    rw [scanDigitsGo]
    split
    · split
      · exact ih (pos + 1) (by omega)
      · exact h
    · exact h

theorem scanDigits_le {data : List Nat} {pos : Nat} (h : pos ≤ data.length) :
    scanDigits data pos ≤ data.length := scanDigitsGo_le data _ pos h

theorem intRunGo_le (data : List Nat) :
    ∀ b pos n, pos ≤ data.length → (intRunGo data b pos n).2 ≤ data.length := by
  intro b
  induction b with
  | zero => intro pos n h; simpa [intRunGo] using h
  | succ b ih =>
    intro pos n h
    rw [intRunGo]
    dsimp only
    split
    · split
      · exact ih (pos + 1) _ (by omega)
      · exact h
    · exact h

theorem atomRunGo_le (data : List Nat) :
    ∀ b pos, pos ≤ data.length → atomRunGo data b pos ≤ data.length := by
  intro b
  induction b with
  | zero => intro pos h; simpa [atomRunGo] using h
  | succ b ih =>
    intro pos h
    rw [atomRunGo]
    split
    · split
      · exact ih (pos + 1) (by omega)
      · exact h
    · exact h

/-- `Decoder.atom` is safe: it never dereferences out of bounds and a
successful atom leaves the cursor in range. -/
theorem atomD_safe (data : List Nat) (pos : Nat) : PRSafe data.length (atomD data pos) := by
  rw [atomD]
  dsimp only
  split
  · split
    · exact atomRunGo_le data _ (pos + 1) (by omega)
    · trivial
  · trivial

/-- `hexChk` returns positions bounded by the buffer. -/
theorem hexChk_le (data : List Nat) :
    ∀ i q, q ≤ data.length → ∀ q2, hexChk data i q = .ok q2 → q2 ≤ data.length := by
  intro i
  induction i with
  | zero =>
    intro q h q2 heq
    rw [hexChk] at heq
    cases heq
    exact h
  | succ i ih =>
    intro q h q2 heq
    rw [hexChk] at heq
    dsimp only at heq
    split at heq
    · split at heq
      · exact ih (q + 1) (by omega) q2 heq
      · cases heq
    · cases heq

/-- `hexChk` advances by exactly the number of digits it checks. -/
theorem hexChk_adds (data : List Nat) :
    ∀ i q q2, hexChk data i q = .ok q2 → q2 = q + i := by
  intro i
  induction i with
  | zero =>
    intro q q2 heq
    rw [hexChk] at heq
    cases heq
    omega
  | succ i ih =>
    intro q q2 heq
    rw [hexChk] at heq
    dsimp only at heq
    split at heq
    · split at heq
      · have := ih (q + 1) q2 heq
        omega
      · cases heq
    · cases heq

/-- The string scan is safe for a sufficient budget: no out-of-bounds
access, and on success the closing quote lies strictly inside the buffer. -/
theorem strScanGo_safe (data : List Nat) :
    ∀ b p u, data.length - p < b →
      (strScanGo data b p u ≠ .crash) ∧
      (∀ u2 q2 q, strScanGo data b p u = .ok (u2, q2) q → q2 < data.length) := by
  intro b
  induction b with
  | zero => intro p u hb; omega
  | succ b ih =>
    intro p u hb
    rw [strScanGo]
    dsimp only
    split
    · rename_i h
      split
      · exact ⟨(fun hc => by cases hc), (fun u2 q2 q heq => by cases heq; exact h)⟩
      · split
        · split
          · rename_i h2 _
            split
            · split
              · rename_i q2 heq2
                have hq2 := hexChk_adds data 3 (p + 2) q2 heq2
                exact ih q2 true (by omega)
              · exact ⟨(fun hc => by cases hc), (fun u2 q2 q heq => by cases heq)⟩
            · split
              · exact ih (p + 2) true (by omega)
              · exact ⟨(fun hc => by cases hc), (fun u2 q2 q heq => by cases heq)⟩
          · exact ⟨(fun hc => by cases hc), (fun u2 q2 q heq => by cases heq)⟩
        · split
          · exact ⟨(fun hc => by cases hc), (fun u2 q2 q heq => by cases heq)⟩
          · exact ih (p + 1) _ (by omega)
    · exact ⟨(fun hc => by cases hc), (fun u2 q2 q heq => by cases heq)⟩

/-- `Decoder.string` is safe. -/
theorem stringD_safe (data : List Nat) (pos : Nat) :
    PRSafe data.length (stringD data pos) := by
  rw [stringD]
  have h := strScanGo_safe data (data.length + 1) (pos + 1) false (by omega)
  split
  · rename_i u pc p2 heq
    have hlt := h.2 u pc p2 heq
    split
    · split
      · exact Nat.succ_le_of_lt hlt
      · trivial
    · exact Nat.succ_le_of_lt hlt
  · trivial
  · rename_i heq
    exact absurd heq h.1
  · trivial

theorem fracPart_le (data : List Nat) (p1 : Nat) :
    ∀ p2, fracPart data p1 = .ok p2 → p2 ≤ data.length := by
  intro p2 heq
  rw [fracPart] at heq
  dsimp only at heq
  split at heq
  · split at heq
    · cases heq
    · cases heq
      exact scanDigits_le (by omega)
  · cases heq

theorem intPartD_le (data : List Nat) (pos : Nat) (c : Nat) (hp : pos < data.length) :
    (intPartD data pos c).2 ≤ data.length := by
  rw [intPartD]
  split
  · omega
  · split
    · exact intRunGo_le data _ pos 0 (by omega)
    · omega

theorem expPart_le (data : List Nat) (p : Nat) (hp : p < data.length) :
    ∀ p3, expPart data p = .ok p3 → p3 ≤ data.length := by
  intro p3 heq
  rw [expPart] at heq
  dsimp only at heq
  split at heq
  · split at heq
    · cases heq
    · rename_i hc2
      cases heq
      have h1 : byteOrZero data (p + 1 + 1) ≠ 0 := by omega
      have h2 := lt_of_byteOrZero_ne h1
      exact scanDigits_le (by omega)
  · cases heq
    split
    · rename_i hq
      exact scanDigits_le (by omega)
    · exact scanDigits_le (by omega)

/-- `Decoder.number`'s scan is safe when entered in bounds. -/
theorem numberScanD_safe (data : List Nat) (pos : Nat) (hp : pos < data.length) :
    PRSafe data.length (numberScanD data pos) := by
  rw [numberScanD]
  rw [List.get?_eq_get hp]
  dsimp only
  have hp1 := intPartD_le data pos (data.get ⟨pos, hp⟩) hp
  split
  · trivial
  · rename_i p2 heq
    have hp2 : p2 ≤ data.length := by
      split at heq
      · exact fracPart_le data _ p2 heq
      · cases heq
        exact hp1
    split
    · rename_i hce
      split
      · trivial
      · rename_i p3 heq3
        have hplt : p2 < data.length := by
          apply lt_of_byteOrZero_ne
          rcases hce with h | h <;> omega
        exact expPart_le data p2 hplt p3 heq3
    · exact hp2

/-- `Decoder.number` is safe when entered in bounds. -/
theorem numberD_safe (data : List Nat) (pos : Nat) (hp : pos < data.length) :
    PRSafe data.length (numberD data pos) := by
  rw [numberD]
  have h := numberScanD_safe data pos hp
  split
  · rename_i fn p heq
    rw [heq] at h
    dsimp only
    split
    · split
      · exact h
      · trivial
    · exact h
  · trivial
  · rename_i heq
    rw [heq] at h
    exact h
  · trivial

theorem parenScanGo_safe (data : List Nat) (start : Nat) :
    ∀ b p, data.length - p < b → PRSafe data.length (parenScanGo data start b p) := by
  intro b
  induction b with
  | zero => intro p hb; omega
  | succ b ih =>
    intro p hb
    rw [parenScanGo]
    split
    · rename_i h
      split
      · exact Nat.succ_le_of_lt h
      · exact ih (p + 1) (by omega)
    · trivial

/-- `Decoder.bracketExpr` is safe when entered in bounds. -/
theorem bracketExprD_safe (data : List Nat) (pos : Nat) (hp : pos ≤ data.length) :
    PRSafe data.length (bracketExprD data pos) := by
  rw [bracketExprD]
  obtain ⟨c, q, heq, _, hql, _, _⟩ := skipSpacesD_spec hp
  rw [heq]
  dsimp only
  split
  · trivial
  · obtain ⟨c2, q2, heq2, _, hq2l, _, _⟩ := @skipSpacesD_spec data (q + 1) (by
      rename_i hc
      have : c ≠ 0 := by
        intro h0
        subst h0
        exact hc (by decide)
      have := skipSpacesD_ne_zero heq hp this
      omega)
    rw [heq2]
    dsimp only
    split
    · have hs := stringD_safe data q2
      split
      · rename_i s r heq3
        rw [heq3] at hs
        obtain ⟨c3, q3, heq4, _, hq3l, _, _⟩ := @skipSpacesD_spec data (r) hs
        rw [heq4]
        dsimp only
        split
        · trivial
        · rename_i hc3
          have : c3 ≠ 0 := by
            intro h0
            subst h0
            exact hc3 (by decide)
          have h5 := skipSpacesD_ne_zero heq4 hs this
          exact Nat.succ_le_of_lt h5
      · trivial
      · rename_i heq3
        rw [heq3] at hs
        exact hs
      · trivial
    · exact parenScanGo_safe data q2 (data.length + 1) q2 (by omega)

theorem intLitD_safe (data : List Nat) (pos : Nat) (bits : Nat) (fn : String)
    (mk : Int → Value) (hp : pos ≤ data.length) :
    PRSafe data.length (intLitD data pos bits fn mk) := by
  rw [intLitD]
  have h := bracketExprD_safe data pos hp
  split
  · rename_i s q heq
    rw [heq] at h
    split
    · exact h
    · trivial
  · trivial
  · rename_i heq
    rw [heq] at h
    exact h
  · trivial

theorem uintLitD_safe (data : List Nat) (pos : Nat) (bits : Nat)
    (mk : Nat → Value) (hp : pos ≤ data.length) :
    PRSafe data.length (uintLitD data pos bits mk) := by
  rw [uintLitD]
  have h := bracketExprD_safe data pos hp
  split
  · rename_i s q heq
    rw [heq] at h
    split
    · exact h
    · trivial
  · trivial
  · rename_i heq
    rw [heq] at h
    exact h
  · trivial

theorem ipportSplit_safe (data : List Nat) (q : Nat) (s : List Nat) (hq : q ≤ data.length) :
    PRSafe data.length (ipportSplit data q s) := by
  rw [ipportSplit.eq_def]
  rcases s with _ | ⟨c0, rest⟩
  · trivial
  · dsimp only
    split <;> [skip; skip] <;>
      first
        | (split <;> first
            | trivial
            | (split <;> first
                | trivial
                | (split <;> first
                    | trivial
                    | (split <;> first
                        | trivial
                        | (split <;> trivial)
                        | exact hq)
                    | exact hq)
                | exact hq)
            | exact hq)
        | trivial

theorem datetimeD_safe (data : List Nat) (pos : Nat) (hp : pos ≤ data.length) :
    PRSafe data.length (datetimeD data pos) := by
  rw [datetimeD]
  have h := bracketExprD_safe data pos hp
  split
  · rename_i s q heq
    rw [heq] at h
    split
    · exact h
    · trivial
  · trivial
  · rename_i heq
    rw [heq] at h
    exact h
  · trivial

theorem ipD_safe (data : List Nat) (pos : Nat) (hp : pos ≤ data.length) :
    PRSafe data.length (ipD data pos) := by
  rw [ipD]
  have h := bracketExprD_safe data pos hp
  split
  · rename_i s q heq
    rw [heq] at h
    split
    · exact h
    · trivial
  · trivial
  · rename_i heq
    rw [heq] at h
    exact h
  · trivial

theorem ipportD_safe (data : List Nat) (pos : Nat) (hp : pos ≤ data.length) :
    PRSafe data.length (ipportD data pos) := by
  rw [ipportD]
  have h := bracketExprD_safe data pos hp
  split
  · rename_i s q heq
    rw [heq] at h
    exact ipportSplit_safe data q s h
  · trivial
  · rename_i heq
    rw [heq] at h
    exact h
  · trivial

/-- The atom dispatch of `Decoder.any` is safe. -/
theorem dispatchAtom_safe (data : List Nat) (a : List Nat) (c : Nat) (p : Nat)
    (hp : p ≤ data.length) : PRSafe data.length (dispatchAtom data a c p) := by
  rw [dispatchAtom]
  by_cases h1 : a = byt "true"
  · rw [if_pos h1]
    exact hp
  rw [if_neg h1]
  by_cases h2 : a = byt "false"
  · rw [if_pos h2]
    exact hp
  rw [if_neg h2]
  by_cases h3 : a = byt "null"
  · rw [if_pos h3]
    exact hp
  rw [if_neg h3]
  by_cases h4 : a = byt "int"
  · rw [if_pos h4]
    exact intLitD_safe data p 64 "Atoi" Value.vint hp
  rw [if_neg h4]
  by_cases h5 : a = byt "datetime"
  · rw [if_pos h5]
    exact datetimeD_safe data p hp
  rw [if_neg h5]
  by_cases h6 : a = byt "ip"
  · rw [if_pos h6]
    exact ipD_safe data p hp
  rw [if_neg h6]
  by_cases h7 : a = byt "ipport"
  · rw [if_pos h7]
    exact ipportD_safe data p hp
  rw [if_neg h7]
  by_cases h8 : a = byt "int8"
  · rw [if_pos h8]
    exact intLitD_safe data p 8 "ParseInt" Value.vi8 hp
  rw [if_neg h8]
  by_cases h9 : a = byt "int16"
  · rw [if_pos h9]
    exact intLitD_safe data p 16 "ParseInt" Value.vi16 hp
  rw [if_neg h9]
  by_cases h10 : a = byt "int32"
  · rw [if_pos h10]
    exact intLitD_safe data p 32 "ParseInt" Value.vi32 hp
  rw [if_neg h10]
  by_cases h11 : a = byt "int64"
  · rw [if_pos h11]
    exact intLitD_safe data p 64 "ParseInt" Value.vi64 hp
  rw [if_neg h11]
  by_cases h12 : a = byt "uint"
  · rw [if_pos h12]
    exact uintLitD_safe data p 64 Value.vuint hp
  rw [if_neg h12]
  by_cases h13 : a = byt "uint8"
  · rw [if_pos h13]
    exact uintLitD_safe data p 8 Value.vu8 hp
  rw [if_neg h13]
  by_cases h14 : a = byt "uint16"
  · rw [if_pos h14]
    exact uintLitD_safe data p 16 Value.vu16 hp
  rw [if_neg h14]
  by_cases h15 : a = byt "uint32"
  · rw [if_pos h15]
    exact uintLitD_safe data p 32 Value.vu32 hp
  rw [if_neg h15]
  by_cases h16 : a = byt "uint64"
  · rw [if_pos h16]
    exact uintLitD_safe data p 64 Value.vu64 hp
  rw [if_neg h16]
  trivial

/-- `Decoder.objectKey` is safe. -/
theorem objectKeyD_safe (data : List Nat) (pos : Nat) :
    PRSafe data.length (objectKeyD data pos) := by
  rw [objectKeyD]
  split
  · split
    · exact stringD_safe data pos
    · exact atomD_safe data pos
  · trivial

/-- Safety of one whole level of parse functions. -/
def FnsSafe (P : ParseFns) : Prop :=
  (∀ data pos, pos ≤ data.length → PRSafe data.length (P.anyF data pos)) ∧
  (∀ data pos, pos < data.length → PRSafe data.length (P.arrayF data pos)) ∧
  (∀ data pos acc, pos ≤ data.length → PRSafe data.length (P.arrLoopF data pos acc)) ∧
  (∀ data pos, pos < data.length → PRSafe data.length (P.objectF data pos)) ∧
  (∀ data pos acc, pos ≤ data.length → PRSafe data.length (P.objLoopF data pos acc))

theorem anyStep_safe (P : ParseFns) (hP : FnsSafe P) (data : List Nat) (pos : Nat)
    (hp : pos ≤ data.length) : PRSafe data.length (anyStep P data pos) := by
  rw [anyStep]
  dsimp only
  split
  · rename_i h
    split
    · have hs := stringD_safe data pos
      split <;> rename_i heq <;> rw [heq] at hs <;> first | exact hs | trivial
    · split
      · have hs := numberD_safe data pos h
        split <;> rename_i heq <;> rw [heq] at hs <;> first | exact hs | trivial
      · split
        · split
          · rename_i h2
            split
            · trivial
            · have hs := numberD_safe data (pos + 1) h2
              split <;> rename_i heq <;> rw [heq] at hs <;> first | exact hs | trivial
          · trivial
        · split
          · have hs := hP.2.1 data pos h
            split <;> rename_i heq <;> rw [heq] at hs <;> first | exact hs | trivial
          · split
            · have hs := hP.2.2.2.1 data pos h
              split <;> rename_i heq <;> rw [heq] at hs <;> first | exact hs | trivial
            · have hs := atomD_safe data pos
              split <;> rename_i heq <;> rw [heq] at hs
              · exact dispatchAtom_safe data _ _ _ hs
              · trivial
              · exact hs
              · trivial
  · trivial

theorem arrLoopStep_safe (P : ParseFns) (hP : FnsSafe P) (data : List Nat) (pos : Nat)
    (acc : List Value) (hp : pos ≤ data.length) :
    PRSafe data.length (arrLoopStep P data pos acc) := by
  rw [arrLoopStep]
  obtain ⟨c, p, heq, _, hpl, _, _⟩ := @skipSpacesD_spec data (pos) hp
  rw [heq]
  dsimp only
  split
  · rename_i hc
    have : p < data.length := skipSpacesD_ne_zero heq hp (by omega)
    exact Nat.succ_le_of_lt this
  · have ha := hP.1 data p hpl
    split <;> rename_i heqa <;> rw [heqa] at ha
    · rename_i v q
      obtain ⟨c2, r, heq2, _, hrl, _, _⟩ := @skipSpacesD_spec data (q) ha
      rw [heq2]
      dsimp only
      split
      · rename_i hc2
        have : r < data.length := skipSpacesD_ne_zero heq2 ha (by omega)
        exact hP.2.2.1 data (r + 1) (acc ++ [v]) (by omega)
      · split
        · rename_i hc2
          have : r < data.length := skipSpacesD_ne_zero heq2 ha (by omega)
          exact Nat.succ_le_of_lt this
        · trivial
    · trivial
    · exact ha
    · trivial

theorem objLoopStep_safe (P : ParseFns) (hP : FnsSafe P) (data : List Nat) (pos : Nat)
    (acc : List (List Nat × Value)) (hp : pos ≤ data.length) :
    PRSafe data.length (objLoopStep P data pos acc) := by
  rw [objLoopStep]
  obtain ⟨c, p, heq, _, hpl, _, _⟩ := @skipSpacesD_spec data (pos) hp
  rw [heq]
  dsimp only
  split
  · rename_i hc
    have : p < data.length := skipSpacesD_ne_zero heq hp (by omega)
    exact Nat.succ_le_of_lt this
  · have hk := objectKeyD_safe data p
    split <;> rename_i heqk <;> rw [heqk] at hk
    · rename_i k q
      obtain ⟨c2, r, heq2, _, hrl, _, _⟩ := @skipSpacesD_spec data (q) hk
      rw [heq2]
      dsimp only
      split
      · trivial
      · rename_i hc2
        have hrlt : r < data.length := skipSpacesD_ne_zero heq2 hk (by omega)
        obtain ⟨c3, r2, heq3, _, hr2l, _, _⟩ :=
          @skipSpacesD_spec data (r + 1) (by omega)
        rw [heq3]
        dsimp only
        have ha := hP.1 data r2 hr2l
        split <;> rename_i heqa <;> rw [heqa] at ha
        · rename_i v t
          obtain ⟨c4, u, heq4, _, hul, _, _⟩ := @skipSpacesD_spec data (t) ha
          rw [heq4]
          dsimp only
          split
          · rename_i hc4
            have : u < data.length := skipSpacesD_ne_zero heq4 ha (by omega)
            exact Nat.succ_le_of_lt this
          · split
            · rename_i hc4
              have : u < data.length := skipSpacesD_ne_zero heq4 ha (by omega)
              exact hP.2.2.2.2 data (u + 1) (insertKV acc k v) (by omega)
            · trivial
        · trivial
        · exact ha
        · trivial
    · trivial
    · exact hk
    · trivial

/-- Every level of the fuel tower is safe: the recursive-descent parser
performs no out-of-bounds access at any fuel. -/
theorem fns_safe : ∀ f, FnsSafe (fns f) := by
  intro f
  induction f with
  | zero =>
    refine ⟨?_, ?_, ?_, ?_, ?_⟩ <;> intros <;> trivial
  | succ f ih =>
    rw [fns]
    refine ⟨?_, ?_, ?_, ?_, ?_⟩
    · intro data pos hp
      exact anyStep_safe (fns f) ih data pos hp
    · intro data pos hp
      exact ih.2.2.1 data (pos + 1) [] (by omega)
    · intro data pos acc hp
      exact arrLoopStep_safe (fns f) ih data pos acc hp
    · intro data pos hp
      exact ih.2.2.2.2 data (pos + 1) [] (by omega)
    · intro data pos acc hp
      exact objLoopStep_safe (fns f) ih data pos acc hp

/-- `Decoder.any` is safe at every fuel. -/
theorem anyD_safe (f : Nat) (data : List Nat) (pos : Nat) (hp : pos ≤ data.length) :
    PRSafe data.length (anyD f data pos) := (fns_safe f).1 data pos hp

/-- `Decoder.Decode` never crashes. -/
theorem decodeD_no_crash (f : Nat) (data : List Nat) : decodeD f data ≠ .crash := by
  rw [decodeD]
  obtain ⟨c, p, heq, _, hpl, _, _⟩ := @skipSpacesD_spec data (0) (by omega)
  rw [heq]
  dsimp only
  have ha : PRSafe data.length (anyD f data p) := anyD_safe f data p hpl
  split <;> rename_i heqa <;> rw [heqa] at ha
  · rename_i v q
    obtain ⟨c2, r, heq2, _, _, _, _⟩ := @skipSpacesD_spec data (q) ha
    rw [heq2]
    dsimp only
    split <;> intro hcon <;> cases hcon
  · intro hcon; cases hcon
  · exact False.elim ha
  · intro hcon; cases hcon

/-- `Decoder.DecodeObject` never crashes. -/
theorem decodeObjectD_no_crash (f : Nat) (data : List Nat) :
    decodeObjectD f data ≠ .crash := by
  rw [decodeObjectD]
  obtain ⟨c, p, heq, _, hpl, _, _⟩ := @skipSpacesD_spec data (0) (by omega)
  rw [heq]
  dsimp only
  split
  · intro hcon; cases hcon
  · rename_i hc
    have hplt : p < data.length := skipSpacesD_ne_zero heq (by omega) (by omega)
    have ha : PRSafe data.length (objectD f data p) := (fns_safe f).2.2.2.1 data p hplt
    split <;> rename_i heqa <;> rw [heqa] at ha
    · rename_i fs2 q
      obtain ⟨c2, r, heq2, _, _, _, _⟩ := @skipSpacesD_spec data (q) ha
      rw [heq2]
      dsimp only
      split <;> intro hcon <;> cases hcon
    · intro hcon; cases hcon
    · exact False.elim ha
    · intro hcon; cases hcon

/-- `Decoder.DecodeArray` never crashes. -/
theorem decodeArrayD_no_crash (f : Nat) (data : List Nat) :
    decodeArrayD f data ≠ .crash := by
  rw [decodeArrayD]
  obtain ⟨c, p, heq, _, hpl, _, _⟩ := @skipSpacesD_spec data (0) (by omega)
  rw [heq]
  dsimp only
  split
  · intro hcon; cases hcon
  · rename_i hc
    have hplt : p < data.length := skipSpacesD_ne_zero heq (by omega) (by omega)
    have ha : PRSafe data.length (arrayD f data p) := (fns_safe f).2.1 data p hplt
    split <;> rename_i heqa <;> rw [heqa] at ha
    · rename_i xs q
      obtain ⟨c2, r, heq2, _, _, _, _⟩ := @skipSpacesD_spec data (q) ha
      rw [heq2]
      dsimp only
      split <;> intro hcon <;> cases hcon
    · intro hcon; cases hcon
    · exact False.elim ha
    · intro hcon; cases hcon

/-! ## Claims -/

/-- C10: for every input buffer (and any fuel), `Decode`, `DecodeObject`
and `DecodeArray` return a result value and never access the buffer out of
bounds: the `crash` marker — which the embedding produces exactly where the
Go code would dereference `d.data[d.pos]` without a guard against the
buffer end — is unreachable. -/
theorem c10_no_out_of_bounds :
    ∀ f data, decodeD f data ≠ .crash ∧ decodeObjectD f data ≠ .crash ∧
      decodeArrayD f data ≠ .crash :=
  fun f data =>
    ⟨decodeD_no_crash f data, decodeObjectD_no_crash f data, decodeArrayD_no_crash f data⟩

theorem c10_no_out_of_bounds_witness : decodeD 5 (byt "[]") ≠ DecRes.crash :=
  (c10_no_out_of_bounds 5 (byt "[]")).1

/-- C2 counterexample: decoding `0e` fails with the cursor at the end of
the input (the whole two-byte buffer was consumed), yet the error is a
positioned `SyntaxError` at offset 2 — the `strconv.ParseFloat` failure —
and not the `ErrUnexpectedEOF` sentinel.  So "every failure at end of
input is the EOF sentinel" is false as stated. -/
theorem c2_eof_sentinel_cex :
    decodeD 9 (byt "0e") =
      .err (.syn "strconv.ParseFloat: parsing \"0e\": invalid syntax" 2) ∧
    (byt "0e").length = 2 ∧
    Err.syn "strconv.ParseFloat: parsing \"0e\": invalid syntax" 2 ≠ Err.eof :=
  ⟨rfl, rfl, fun h => Err.noConfusion h⟩

/-- C2 (amended): every failure raised through the decoder's
unexpected-character helper `Decoder.error` has offset `pos + 1` when the
cursor is not at the end, and is exactly the `ErrUnexpectedEOF` sentinel
(whose `Offset` is `-1`) when it is; in particular decoding `"as` and
`[1,` returns that sentinel.  (Failures raised elsewhere — such as the
`strconv.ParseFloat` re-parse — may carry their own positioned error even
at the end of input, as the counterexample shows.) -/
theorem c2_error_offsets :
    (∀ (data : List Nat) (pos c : Nat) (ctx : String), pos < data.length →
        errD data pos c ctx = .syn (errMsg c ctx) ((pos : Int) + 1)) ∧
    (∀ (data : List Nat) (pos c : Nat) (ctx : String), data.length ≤ pos →
        errD data pos c ctx = .eof) ∧
    Err.offset .eof = -1 ∧
    decodeD 9 (byt "\"as") = .err .eof ∧
    decodeD 9 (byt "[1,") = .err .eof := by
  refine ⟨?_, ?_, rfl, rfl, rfl⟩
  · intro data pos c ctx h
    rw [errD, if_pos h]
  · intro data pos c ctx h
    rw [errD, if_neg (by omega)]

theorem c2_error_offsets_witness :
    errD (byt "ab") 0 120 "after object key" =
      .syn (errMsg 120 "after object key") 1 :=
  c2_error_offsets.1 (byt "ab") 0 120 "after object key" (by decide)

/-- C5: the source guard `c < '0' && c > '9'` after a consumed `-` is
always false (second conjunct), so a `-` followed by a non-digit does not
fail: decoding `-x` succeeds with the value `-0.0` (the number scanner
consumes nothing) plus an `ExtraDataError` at the `x`, contradicting the
claim that it fails with a positioned syntax error. -/
theorem c5_negative_literal_bug :
    decodeD 9 (byt "-x") = .okExtra (.num (.ofInt 0)) 1 ∧
    ∀ c : Nat, ¬(c < 48 ∧ 57 < c) :=
  ⟨rfl, fun _ h => by omega⟩

/-- C3: round-tripping fails on a decoder-produced tree.  Decoding `"\b"`
yields the one-byte string 0x08; `Marshal` emits that byte raw (its escape
set stops at `\ " \r \n \f \t`), producing `"` 0x08 `"`; and decoding
those bytes fails with a positioned syntax error at the control byte
(offset 2), because the string grammar rejects bytes below 0x20. -/
theorem c3_roundtrip_bug :
    decodeD 9 (byt "\"\\b\"") = .ok (.str [8]) ∧
    marshalD 9 (.str [8]) = [34, 8, 34] ∧
    (∃ m, decodeD 9 [34, 8, 34] = .err (.syn m 2)) :=
  ⟨rfl, rfl, ⟨errMsg 8 "in string literal", rfl⟩⟩

/-- C1: top-level `Decode` parses exactly one value and then skips trailing
whitespace: whenever the leading skip and the value parse succeed, the
trailing skip lands on a position `p2` past a run of spaces; if `p2` is
inside the buffer the result is the value together with an
`ExtraDataError` at `p2`, which holds the first unconsumed non-space byte;
if `p2` is the end, the value is returned with no error.  Concretely,
`{test: 1} blah` yields the object `{"test": 1.0}` with an
`ExtraDataError` whose offset 10 points at `blah`. -/
theorem c1_nongreedy_decode :
    (∀ (f : Nat) (data : List Nat) (c0 p0 : Nat) (v : Value) (p1 : Nat),
      skipSpacesD data 0 = some (c0, p0) →
      anyD f data p0 = .ok v p1 →
      ∃ c2 p2, skipSpacesD data p1 = some (c2, p2) ∧ p1 ≤ p2 ∧ p2 ≤ data.length ∧
        (∀ i, p1 ≤ i → i < p2 → isSpaceB (data.getD i 0) = true) ∧
        ((p2 < data.length ∧ isSpaceB (data.getD p2 0) = false ∧
            decodeD f data = .okExtra v p2) ∨
          (p2 = data.length ∧ decodeD f data = .ok v))) ∧
    decodeD 99 (byt "{test: 1} blah") =
      .okExtra (.obj [(byt "test", .num (.ofInt 1))]) 10 ∧
    (byt "{test: 1} blah").drop 10 = byt "blah" := by
  refine ⟨?_, rfl, rfl⟩
  intro f data c0 p0 v p1 h0 h1
  obtain ⟨ca, qa, heqa, _, hqa, _, _⟩ := @skipSpacesD_spec data (0) (by omega)
  rw [h0] at heqa
  cases heqa
  have ha : PRSafe data.length (anyD f data p0) := anyD_safe f data p0 hqa
  rw [h1] at ha
  obtain ⟨c2, p2, heq2, hle2, hlen2, hmid2, hend2⟩ :=
    @skipSpacesD_spec data (p1) ha
  refine ⟨c2, p2, heq2, hle2, hlen2, hmid2, ?_⟩
  have hdec : decodeD f data =
      (if p2 < data.length then DecRes.okExtra v p2 else DecRes.ok v) := by
    rw [decodeD, h0]
    dsimp only
    rw [h1]
    dsimp only
    rw [heq2]
  rcases hend2 with ⟨hlt, hbyte, hnsp⟩ | ⟨heqlen, _⟩
  · refine Or.inl ⟨hlt, ?_, ?_⟩
    · rw [hbyte]
      exact hnsp
    · rw [hdec, if_pos hlt]
  · refine Or.inr ⟨heqlen, ?_⟩
    rw [hdec, if_neg (by omega)]

theorem c1_nongreedy_decode_witness :
    ∃ c2 p2, skipSpacesD (byt "{test: 1} blah") 9 = some (c2, p2) ∧ 9 ≤ p2 ∧
      p2 ≤ (byt "{test: 1} blah").length ∧
      (∀ i, 9 ≤ i → i < p2 → isSpaceB ((byt "{test: 1} blah").getD i 0) = true) ∧
      ((p2 < (byt "{test: 1} blah").length ∧
          isSpaceB ((byt "{test: 1} blah").getD p2 0) = false ∧
          decodeD 99 (byt "{test: 1} blah") =
            .okExtra (.obj [(byt "test", .num (.ofInt 1))]) p2) ∨
        (p2 = (byt "{test: 1} blah").length ∧
          decodeD 99 (byt "{test: 1} blah") =
            .ok (.obj [(byt "test", .num (.ofInt 1))]))) :=
  c1_nongreedy_decode.1 99 (byt "{test: 1} blah") 123 0
    (.obj [(byt "test", .num (.ofInt 1))]) 9 rfl rfl

/-- C6: a bare numeric literal always decodes to a float `Number` and
never to an integer-typed value: whatever `Decoder.any` successfully
returns from a buffer position holding a digit or `-` is a `Value.num`
(first part); a literal whose scan marked it floating is re-parsed as text
by `strconv.ParseFloat`, whose failure surfaces as a `SyntaxError` at the
current offset (second part); concretely, `0e` fails with the ParseFloat
invalid-syntax error at offset 2 rather than decoding to `0` (third part). -/
theorem c6_bare_numbers_are_floats :
    (∀ (f : Nat) (data : List Nat) (pos : Nat) (v : Value) (q : Nat),
      pos < data.length →
      (isDigitB (data.getD pos 0) = true ∨ data.getD pos 0 = 45) →
      anyD f data pos = .ok v q → ∃ r, v = Value.num r) ∧
    (∀ (data : List Nat) (pos : Nat) (n : Int) (p : Nat),
      numberScanD data pos = .ok (true, n) p →
      numberD data pos =
        (match goParseFloat (slice data pos p) with
         | some q => .ok q p
         | none =>
           .fail (.syn (numErrMsg "ParseFloat" (slice data pos p) .badSyn) (p : Int)) p)) ∧
    decodeD 9 (byt "0e") =
      .err (.syn "strconv.ParseFloat: parsing \"0e\": invalid syntax" 2) := by
  refine ⟨?_, ?_, rfl⟩
  · intro f data pos v q hp hdig h1
    cases f with
    | zero =>
      rw [anyD, fns] at h1
      cases h1
    | succ f =>
      rw [anyD, fns] at h1
      dsimp only at h1
      rw [anyStep] at h1
      rw [dif_pos hp] at h1
      dsimp only at h1
      rw [← byteOrZero_of_lt hp] at h1
      have h34 : ¬(byteOrZero data pos = 34) := by
        rcases hdig with h | h
        · simp only [isDigitB, Bool.and_eq_true, decide_eq_true_eq] at h
          unfold byteOrZero at *
          omega
        · unfold byteOrZero at *
          omega
      rw [if_neg h34] at h1
      by_cases hd : 48 ≤ byteOrZero data pos ∧ byteOrZero data pos ≤ 57
      · rw [if_pos hd] at h1
        split at h1 <;> cases h1
        exact ⟨_, rfl⟩
      · rw [if_neg hd] at h1
        have h45 : byteOrZero data pos = 45 := by
          rcases hdig with h | h
          · simp only [isDigitB, Bool.and_eq_true, decide_eq_true_eq] at h
            unfold byteOrZero at *
            omega
          · exact h
        rw [if_pos h45] at h1
        split at h1
        · rename_i h2
          rw [if_neg (by omega)] at h1
          split at h1 <;> cases h1
          exact ⟨_, rfl⟩
        · cases h1
  · intro data pos n p h
    rw [numberD, h]
    rfl

theorem c6_bare_numbers_are_floats_witness :
    ∃ r, Value.num (Dec.ofInt 5) = Value.num r :=
  c6_bare_numbers_are_floats.1 9 (byt "5") 0 (.num (.ofInt 5)) 1 (by decide)
    (Or.inl (by decide)) rfl

/-- Spec-side reading of a decimal digit run: defined independently of
`goParseInt` to state what "the integer value of the argument text" means. -/
def decDigits? (s : List Nat) : Option Nat :=
  if s ≠ [] ∧ s.all isDigitB then some (digitsVal s) else none

/-- Spec-side value of a signed decimal integer literal: an optional
`+`/`-` sign followed by a nonempty digit run, valued exactly. -/
def decIntOf (s : List Nat) : Option Int :=
  match s with
  | [] => none
  | c0 :: rest =>
    if c0 = 43 then Option.map (fun m : Nat => (m : Int)) (decDigits? rest)
    else if c0 = 45 then Option.map (fun m : Nat => -(m : Int)) (decDigits? rest)
    else Option.map (fun m : Nat => (m : Int)) (decDigits? (c0 :: rest))

theorem decDigits?_eq_some {s : List Nat} {m : Nat} :
    decDigits? s = some m ↔ (s ≠ [] ∧ s.all isDigitB = true) ∧ m = digitsVal s := by
  rw [decDigits?]
  split
  · rename_i h
    simp only [Option.some.injEq]
    constructor
    · intro he
      exact ⟨h, he.symm⟩
    · intro ⟨_, he⟩
      exact he.symm
  · rename_i h
    simp only [not_and_or] at h
    constructor
    · intro he
      cases he
    · intro ⟨h2, _⟩
      rcases h with h | h
      · exact absurd h2.1 (by simpa using h)
      · exact absurd h2.2 (by simpa using h)

/-- `strconv.ParseInt(s, 10, 8)` computes exactly the spec-side decimal
value when that value fits `int8`, and a range error when it does not. -/
theorem goParseInt8_of_decIntOf {s : List Nat} {n : Int}
    (h : decIntOf s = some n) :
    goParseInt s 8 =
      (if -128 ≤ n ∧ n ≤ 127 then .ok n else .error .outOfRange) := by
  match s with
  | [] => simp [decIntOf] at h
  | c0 :: rest =>
    rw [decIntOf] at h
    rw [goParseInt]
    dsimp only
    by_cases h43 : c0 = 43
    · rw [if_pos h43] at h
      obtain ⟨m, hm, hn⟩ := Option.map_eq_some'.mp h
      obtain ⟨⟨hne, hall⟩, hv⟩ := decDigits?_eq_some.mp hm
      subst h43
      subst hv
      rw [if_pos (Or.inl rfl), if_neg hne, if_neg (by simpa using hall)]
      rw [if_neg (by decide)]
      split
      · rw [if_neg (by omega)]
      · rw [if_pos (by omega), hn]
    · rw [if_neg h43] at h
      by_cases h45 : c0 = 45
      · rw [if_pos h45] at h
        obtain ⟨m, hm, hn⟩ := Option.map_eq_some'.mp h
        obtain ⟨⟨hne, hall⟩, hv⟩ := decDigits?_eq_some.mp hm
        subst h45
        subst hv
        rw [if_pos (Or.inr rfl), if_neg hne, if_neg (by simpa using hall)]
        rw [if_pos (by decide)]
        split
        · rw [if_neg (by omega)]
        · rw [if_pos (by omega), hn]
      · rw [if_neg h45] at h
        obtain ⟨m, hm, hn⟩ := Option.map_eq_some'.mp h
        obtain ⟨⟨hne, hall⟩, hv⟩ := decDigits?_eq_some.mp hm
        subst hv
        have hdigs : (if c0 = 43 ∨ c0 = 45 then rest else c0 :: rest) = c0 :: rest := by
          rw [if_neg]
          rintro (hx | hx)
          · exact h43 hx
          · exact h45 hx
        rw [hdigs]
        rw [if_neg (by simp), if_neg (by simpa using hall)]
        rw [if_neg (by simpa using h45)]
        split
        · rw [if_neg (by omega)]
        · rw [if_pos (by omega), hn]

/-- C7: a typed literal `int8(...)` decodes to the exact 8-bit value of
the argument text when it fits, and otherwise fails with a `SyntaxError`
embedding the `strconv` range-failure description, positioned at the
cursor after the whole bracket expression (first part, for any buffer);
concretely `int8(-128)` yields the value `-128` and `int8(-500)` fails
with the `strconv.ParseInt` range message at offset 10, the position after
`int8(-500)` was consumed.  (The other `intN`/`uintN` parsers share this
shape through `intLitD`/`uintLitD` with their own widths.) -/
theorem c7_int8_typed_literal :
    (∀ (data : List Nat) (pos : Nat) (s : List Nat) (q : Nat) (n : Int),
      bracketExprD data pos = .ok s q →
      decIntOf s = some n →
      ((-128 ≤ n ∧ n ≤ 127) →
        intLitD data pos 8 "ParseInt" Value.vi8 = .ok (.vi8 n) q) ∧
      ((n < -128 ∨ 127 < n) →
        intLitD data pos 8 "ParseInt" Value.vi8 =
          .fail (.syn (numErrMsg "ParseInt" s .outOfRange) (q : Int)) q)) ∧
    decodeD 9 (byt "int8(-128)") = .ok (.vi8 (-128)) ∧
    decodeD 9 (byt "int8(-500)") =
      .err (.syn "strconv.ParseInt: parsing \"-500\": value out of range" 10) := by
  refine ⟨?_, rfl, rfl⟩
  intro data pos s q n hbr hdec
  have hgp := goParseInt8_of_decIntOf hdec
  constructor
  · intro hrng
    rw [intLitD, hbr]
    dsimp only
    rw [hgp, if_pos hrng]
  · intro hrng
    rw [intLitD, hbr]
    dsimp only
    rw [hgp, if_neg (by omega)]

theorem c7_int8_typed_literal_witness :
    intLitD (byt "int8(-128)") 4 8 "ParseInt" Value.vi8 = .ok (.vi8 (-128)) 10 ∧
    intLitD (byt "int8(-500)") 4 8 "ParseInt" Value.vi8 =
      .fail (.syn (numErrMsg "ParseInt" (byt "-500") .outOfRange) 10) 10 :=
  ⟨(c7_int8_typed_literal.1 (byt "int8(-128)") 4 (byt "-128") 10 (-128) rfl
      (by decide)).1 (by decide),
    (c7_int8_typed_literal.1 (byt "int8(-500)") 4 (byt "-500") 10 (-500) rfl
      (by decide)).2 (by decide)⟩

/-- A decimal body wrapped in quotes is never equal to the bare body
(their lengths differ by two). -/
theorem quoted_ne_plain (l : List Nat) : [34] ++ l ++ [34] ≠ l := by
  intro h
  have := congrArg List.length h
  simp only [List.length_append, List.length_cons, List.length_nil] at this
  omega

/-- C8: `encodeInt64` emits `int64(<decimal>)` with the decimal wrapped in
double quotes inside the parentheses if and only if the value lies outside
`±(2^53 - 1)` (`MAX_SAFE_INTEGER`/`MIN_SAFE_INTEGER`), and `encodeUInt64`
quotes if and only if the value exceeds `2^53 - 1`; in-range values are
emitted unquoted. -/
theorem c8_safe_integer_quoting :
    (∀ v : Int,
      (encodeInt64D v = byt "int64(" ++ ([34] ++ fmtInt v ++ [34]) ++ [41] ↔
        (MAX_SAFE_INTEGER < v ∨ v < MIN_SAFE_INTEGER)) ∧
      (encodeInt64D v = byt "int64(" ++ fmtInt v ++ [41] ↔
        ¬(MAX_SAFE_INTEGER < v ∨ v < MIN_SAFE_INTEGER))) ∧
    (∀ v : Nat,
      (encodeUInt64D v = byt "uint64(" ++ ([34] ++ fmtNat v ++ [34]) ++ [41] ↔
        (2 ^ 53 - 1 : Nat) < v) ∧
      (encodeUInt64D v = byt "uint64(" ++ fmtNat v ++ [41] ↔
        ¬((2 ^ 53 - 1 : Nat) < v))) := by
  constructor
  · intro v
    by_cases h : MAX_SAFE_INTEGER < v ∨ v < MIN_SAFE_INTEGER
    · rw [encodeInt64D, if_pos h]
      constructor
      · exact ⟨fun _ => h, fun _ => by simp [List.append_assoc]⟩
      · constructor
        · intro he
          have hlen := congrArg List.length he
          simp only [List.length_append, List.length_cons, List.length_nil] at hlen
          omega
        · intro hn
          exact absurd h hn
    · rw [encodeInt64D, if_neg h]
      constructor
      · constructor
        · intro he
          have hlen := congrArg List.length he
          simp only [List.length_append, List.length_cons, List.length_nil] at hlen
          omega
        · intro hc
          exact absurd hc h
      · exact ⟨fun _ => h, fun _ => rfl⟩
  · intro v
    by_cases h : (2 ^ 53 - 1 : Nat) < v
    · rw [encodeUInt64D, if_pos h]
      constructor
      · exact ⟨fun _ => h, fun _ => by simp [List.append_assoc]⟩
      · constructor
        · intro he
          have hlen := congrArg List.length he
          simp only [List.length_append, List.length_cons, List.length_nil] at hlen
          omega
        · intro hn
          exact absurd h hn
    · rw [encodeUInt64D, if_neg h]
      constructor
      · constructor
        · intro he
          have hlen := congrArg List.length he
          simp only [List.length_append, List.length_cons, List.length_nil] at hlen
          omega
        · intro hc
          exact absurd hc h
      · exact ⟨fun _ => h, fun _ => rfl⟩

theorem c8_safe_integer_quoting_witness :
    encodeInt64D (2 ^ 53) = byt "int64(" ++ ([34] ++ fmtInt (2 ^ 53) ++ [34]) ++ [41] ∧
    encodeInt64D 7 = byt "int64(" ++ fmtInt 7 ++ [41] :=
  ⟨((c8_safe_integer_quoting.1 (2 ^ 53)).1).mpr (Or.inl (by decide)),
    ((c8_safe_integer_quoting.1 7).2).mpr (by decide)⟩

/-- The decoder's unquoted-key grammar `[A-Za-z_][A-Za-z0-9_]*`, built
from the byte tests of `Decoder.atom` (underscore included). -/
def decoderBareword (k : List Nat) : Bool :=
  match k with
  | [] => false
  | c :: rest => isAtomStartB c && rest.all isAtomCharB

/-- C4 counterexample: the key `_` matches the decoder's bareword atom
grammar, yet `Encoder.encodeKey` emits it quoted (`"_"`), because the
encoder's first-byte test accepts only `[A-Za-z]` — no underscore. -/
theorem c4_underscore_key_cex :
    decoderBareword (byt "_") = true ∧
    encodeKeyD (byt "_") = byt "\"_\"" ∧
    encodeKeyD (byt "_") ≠ byt "_" :=
  ⟨rfl, rfl, by decide⟩

theorem escStr_length_ge : ∀ s : List Nat, s.length ≤ (escStr s).length := by
  intro s
  induction s with
  | nil => simp [escStr]
  | cons c rest ih =>
    rw [escStr]
    simp only [List.length_append, List.length_cons]
    split_ifs <;> simp only [List.length_cons, List.length_nil] <;> omega

/-- C4 (amended): the encoder emits an object key unquoted if and only if
it matches `[A-Za-z][A-Za-z0-9]*` — the encoder's own bareword test,
which, unlike the decoder's atom grammar, rejects underscores — and
otherwise emits it as a quoted, escaped string (which is never the bare
key itself). -/
theorem c4_encoder_key_bareword :
    (∀ k, encBareword k = true → encodeKeyD k = k) ∧
    (∀ k, encBareword k = false → encodeKeyD k = encodeStringD k) ∧
    (∀ k, encodeStringD k ≠ k) := by
  refine ⟨?_, ?_, ?_⟩
  · intro k h
    rw [encodeKeyD, if_pos h]
  · intro k h
    rw [encodeKeyD, if_neg (by simp [h])]
  · intro k he
    have hlen := congrArg List.length he
    have hes := escStr_length_ge k
    simp only [encodeStringD, List.length_append, List.length_cons,
      List.length_nil] at hlen
    omega

theorem c4_encoder_key_bareword_witness :
    encodeKeyD (byt "a_b") = encodeStringD (byt "a_b") ∧
    encodeKeyD (byt "k01") = byt "k01" :=
  ⟨c4_encoder_key_bareword.2.1 (byt "a_b") (by decide),
    c4_encoder_key_bareword.1 (byt "k01") (by decide)⟩

theorem leBytes_total : ∀ a b : List Nat, leBytes a b = true ∨ leBytes b a = true := by
  intro a
  induction a with
  | nil => intro b; left; rfl
  | cons x as2 ih =>
    intro b
    cases b with
    | nil => right; rfl
    | cons y bs2 =>
      rw [leBytes, leBytes]
      by_cases h1 : x < y
      · left
        rw [if_pos h1]
      · by_cases h2 : y < x
        · right
          rw [if_pos h2]
        · rw [if_neg h1, if_neg h2, if_neg h2, if_neg h1]
          exact ih bs2

theorem leBytes_trans :
    ∀ a b c : List Nat, leBytes a b = true → leBytes b c = true →
      leBytes a c = true := by
  intro a
  induction a with
  | nil => intro b c _ _; rfl
  | cons x as2 ih =>
    intro b c h1 h2
    cases b with
    | nil => rw [leBytes] at h1; cases h1
    | cons y bs2 =>
      cases c with
      | nil => rw [leBytes] at h2; cases h2
      | cons z cs2 =>
        rw [leBytes] at h1 h2 ⊢
        split_ifs at h1 h2 ⊢ <;>
          first
            | rfl
            | omega
            | exact ih bs2 cs2 h1 h2
            | cases h1
            | cases h2

theorem leBytes_antisymm :
    ∀ a b : List Nat, leBytes a b = true → leBytes b a = true → a = b := by
  intro a
  induction a with
  | nil =>
    intro b _ h2
    cases b with
    | nil => rfl
    | cons y bs2 => rw [leBytes] at h2; cases h2
  | cons x as2 ih =>
    intro b h1 h2
    cases b with
    | nil => rw [leBytes] at h1; cases h1
    | cons y bs2 =>
      rw [leBytes] at h1 h2
      split_ifs at h1 h2 <;>
        first
          | omega
          | (rename_i ha hb
             have : x = y := by omega
             rw [this, ih bs2 h1 h2])
          | cases h1
          | cases h2

instance : IsTotal (List Nat × Value) keyLe :=
  ⟨fun a b => leBytes_total a.1 b.1⟩

instance : IsTrans (List Nat × Value) keyLe :=
  ⟨fun _ _ _ h1 h2 => leBytes_trans _ _ _ h1 h2⟩

/-- Strict version of the key order, used to make sorted permutations
unique when keys are distinct. -/
def keyLt (p q : List Nat × Value) : Prop := keyLe p q ∧ p.1 ≠ q.1

instance : IsAntisymm (List Nat × Value) keyLt :=
  ⟨fun _ _ h1 h2 => absurd (leBytes_antisymm _ _ h1.1 h2.1) h1.2⟩

theorem sorted_keyLt_of {l : List (List Nat × Value)}
    (hs : List.Sorted keyLe l) (hnd : (l.map Prod.fst).Nodup) :
    List.Sorted keyLt l := by
  have hnd2 : l.Pairwise (fun p q => p.1 ≠ q.1) := List.pairwise_map.mp hnd
  exact hs.and hnd2

/-- For duplicate-free key sets — i.e. for every association list that
models a Go map — the sorted pair list is independent of the order of the
input list, so `Encoder.encodeMap`'s emission order is fully determined by
the key set. -/
theorem sortPairs_eq_of_perm {fs1 fs2 : List (List Nat × Value)}
    (hp : fs1.Perm fs2) (hnd : (fs1.map Prod.fst).Nodup) :
    sortPairs fs1 = sortPairs fs2 := by
  have hperm : (sortPairs fs1).Perm (sortPairs fs2) :=
    (List.perm_insertionSort keyLe fs1).trans
      (hp.trans (List.perm_insertionSort keyLe fs2).symm)
  have hnd2 : (fs2.map Prod.fst).Nodup := ((hp.map Prod.fst).nodup_iff).mp hnd
  have hnd1s : ((sortPairs fs1).map Prod.fst).Nodup :=
    (((List.perm_insertionSort keyLe fs1).map Prod.fst).nodup_iff).mpr hnd
  have hnd2s : ((sortPairs fs2).map Prod.fst).Nodup :=
    (((List.perm_insertionSort keyLe fs2).map Prod.fst).nodup_iff).mpr hnd2
  exact List.eq_of_perm_of_sorted hperm
    (sorted_keyLt_of (List.sorted_insertionSort keyLe fs1) hnd1s)
    (sorted_keyLt_of (List.sorted_insertionSort keyLe fs2) hnd2s)

/-- C9: the encoder emits a map's keys sorted lexicographically by bytes
regardless of the association order the map model presents them in: for
any two permutations of the same duplicate-free field list — i.e. for any
iteration order of the same Go map — the encoded bytes are identical
(for every configuration, nesting level and fuel).  Encoding the same
tree twice is identical a fortiori, `encValGo` being a function. -/
theorem c9_map_key_order_deterministic :
    ∀ (cfg : EncCfg) (lvl f : Nat) (fs1 fs2 : List (List Nat × Value)),
      fs1.Perm fs2 → (fs1.map Prod.fst).Nodup →
      encValGo f cfg lvl (.obj fs1) = encValGo f cfg lvl (.obj fs2) := by
  intro cfg lvl f fs1 fs2 hp hnd
  cases f with
  | zero => rfl
  | succ f =>
    rw [encValGo, encValGo]
    rw [sortPairs_eq_of_perm hp hnd]

theorem c9_map_key_order_deterministic_witness :
    encValGo 5 cfg0 0 (.obj [(byt "b", .null), (byt "a", .vbool true)]) =
      encValGo 5 cfg0 0 (.obj [(byt "a", .vbool true), (byt "b", .null)]) :=
  c9_map_key_order_deterministic cfg0 0 5 _ _ (List.Perm.swap _ _ _) (by decide)

end Jsonx
